import Mathlib

/-!
# Verification of the syntax-to-sound command core

A shallow embedding of the repository's command pipeline:

* `app/shared/contracts.py` — the command schema (player-name grammar,
  enumerations, per-variant field validation, batch limit),
* `app/backend/command_normalizer.py` — the repair/normalization pass,
* `app/backend/safety.py` — the validator/emitter and the static safety
  proof over emitted text,
* `app/backend/main.py` (`_compute_revert`) — the session-state / revert
  engine,
* `app/backend/llm_service.py` (`_extract_json_payload(s)`) — tolerant
  JSON extraction.

Machine conventions: Python scalars are modelled by `Value` (floats are
modelled by the decimal numerals they come from in JSON input:
`vNum m e` denotes `m / 10^e`); loosely-typed JSON-like input records by
`RawVal`; CPython library behaviour that the source calls into
(`ast.parse`, `json` decoding, pydantic model validation) is modelled by
executable Lean functions that follow the documented behaviour of those
libraries on the fragment of inputs this program exercises.
-/

/-- Python scalar values as they occur in command payloads.
`vNum m e` models the float written as the decimal numeral `m * 10^(-e)`
(e.g. `0.25` is `vNum 25 2`); `str()` of such a float is rendered from
that numeral. -/
inductive Value where
  | vInt (n : Int)
  | vNum (m : Int) (e : Nat)
  | vStr (s : String)
  | vBool (b : Bool)
  deriving DecidableEq, Repr

/-- Loosely-typed JSON-like Python values (the `Any`-typed raw command
records the normalizer and validator consume). -/
inductive RawVal where
  | rnull
  | rbool (b : Bool)
  | rint (n : Int)
  | rnum (m : Int) (e : Nat)
  | rstr (s : String)
  | rlist (xs : List RawVal)
  | rdict (fields : List (String × RawVal))
  deriving Repr

mutual

/-- Structural boolean equality on `RawVal`. -/
def RawVal.beq : RawVal → RawVal → Bool
  | .rnull, .rnull => true
  | .rbool a, .rbool b => a == b
  | .rint a, .rint b => a == b
  | .rnum m e, .rnum m' e' => m == m' && e == e'
  | .rstr a, .rstr b => a == b
  | .rlist xs, .rlist ys => RawVal.beqList xs ys
  | .rdict xs, .rdict ys => RawVal.beqFields xs ys
  | _, _ => false

/-- Pointwise `beq` on lists of raw values. -/
def RawVal.beqList : List RawVal → List RawVal → Bool
  | [], [] => true
  | x :: xs, y :: ys => RawVal.beq x y && RawVal.beqList xs ys
  | _, _ => false

/-- Pointwise `beq` on dict field lists. -/
def RawVal.beqFields : List (String × RawVal) → List (String × RawVal) → Bool
  | [], [] => true
  | (k, v) :: xs, (k', v') :: ys =>
      k == k' && RawVal.beq v v' && RawVal.beqFields xs ys
  | _, _ => false

end

mutual

theorem RawVal.eq_of_beq : ∀ {a b : RawVal}, RawVal.beq a b = true → a = b
  | .rnull, .rnull, _ => rfl
  | .rbool _, .rbool _, h => by
      simp only [RawVal.beq, beq_iff_eq] at h; rw [h]
  | .rint _, .rint _, h => by
      simp only [RawVal.beq, beq_iff_eq] at h; rw [h]
  | .rnum _ _, .rnum _ _, h => by
      simp only [RawVal.beq, Bool.and_eq_true, beq_iff_eq] at h
      rw [h.1, h.2]
  | .rstr _, .rstr _, h => by
      simp only [RawVal.beq, beq_iff_eq] at h; rw [h]
  | .rlist xs, .rlist ys, h => by
      simp only [RawVal.beq] at h
      rw [RawVal.eqList_of_beqList h]
  | .rdict xs, .rdict ys, h => by
      simp only [RawVal.beq] at h
      rw [RawVal.eqFields_of_beqFields h]

theorem RawVal.eqList_of_beqList :
    ∀ {xs ys : List RawVal}, RawVal.beqList xs ys = true → xs = ys
  | [], [], _ => rfl
  | x :: xs, y :: ys, h => by
      simp only [RawVal.beqList, Bool.and_eq_true] at h
      rw [RawVal.eq_of_beq h.1, RawVal.eqList_of_beqList h.2]

theorem RawVal.eqFields_of_beqFields :
    ∀ {xs ys : List (String × RawVal)}, RawVal.beqFields xs ys = true → xs = ys
  | [], [], _ => rfl
  | (k, v) :: xs, (k', v') :: ys, h => by
      simp only [RawVal.beqFields, Bool.and_eq_true, beq_iff_eq] at h
      rw [h.1.1, RawVal.eq_of_beq h.1.2, RawVal.eqFields_of_beqFields h.2]

end

mutual

theorem RawVal.beq_refl : ∀ a : RawVal, RawVal.beq a a = true
  | .rnull => rfl
  | .rbool _ => by simp [RawVal.beq]
  | .rint _ => by simp [RawVal.beq]
  | .rnum _ _ => by simp [RawVal.beq]
  | .rstr _ => by simp [RawVal.beq]
  | .rlist xs => RawVal.beqList_refl xs
  | .rdict xs => RawVal.beqFields_refl xs

theorem RawVal.beqList_refl : ∀ xs : List RawVal, RawVal.beqList xs xs = true
  | [] => rfl
  | x :: xs => by
      simp only [RawVal.beqList, Bool.and_eq_true]
      exact ⟨RawVal.beq_refl x, RawVal.beqList_refl xs⟩

theorem RawVal.beqFields_refl :
    ∀ xs : List (String × RawVal), RawVal.beqFields xs xs = true
  | [] => rfl
  | (k, v) :: xs => by
      simp only [RawVal.beqFields, Bool.and_eq_true, beq_iff_eq]
      exact ⟨⟨by simp, RawVal.beq_refl v⟩, RawVal.beqFields_refl xs⟩

end

instance : DecidableEq RawVal := fun a b =>
  if h : RawVal.beq a b = true then
    .isTrue (RawVal.eq_of_beq h)
  else
    .isFalse (fun hab => h (hab ▸ RawVal.beq_refl a))

instance {e a : Type} [DecidableEq e] [DecidableEq a] :
    DecidableEq (Except e a) := fun x y =>
  match x, y with
  | .ok u, .ok v =>
      if h : u = v then .isTrue (by rw [h]) else .isFalse (by intro hc; cases hc; exact h rfl)
  | .error u, .error v =>
      if h : u = v then .isTrue (by rw [h]) else .isFalse (by intro hc; cases hc; exact h rfl)
  | .ok _, .error _ => .isFalse (by intro hc; cases hc)
  | .error _, .ok _ => .isFalse (by intro hc; cases hc)

namespace SyntaxToSound

/-- Assoc-list lookup of a key in a Python-dict-like field list
(`d.get(k)` / `d[k]`; first occurrence wins, matching a dict in which
keys are unique). -/
def dictGet (fields : List (String × RawVal)) (k : String) : Option RawVal :=
  (fields.find? (fun kv => kv.1 == k)).map Prod.snd

/-- `d[k] = v` on a dict-like field list: replaces the value of an
existing key in place, otherwise appends the new key at the end
(CPython dict update order). -/
def dictSet (fields : List (String × RawVal)) (k : String) (v : RawVal) :
    List (String × RawVal) :=
  if fields.any (fun kv => kv.1 == k) then
    fields.map (fun kv => if kv.1 == k then (k, v) else kv)
  else
    fields ++ [(k, v)]

/-- Python truthiness (`bool(v)`) of a raw value. -/
def truthy : RawVal → Bool
  | .rnull => false
  | .rbool b => b
  | .rint n => n != 0
  | .rnum m _ => m != 0
  | .rstr s => s != ""
  | .rlist xs => !xs.isEmpty
  | .rdict fs => !fs.isEmpty

/-- `type(v).__name__` for a raw value. -/
def pyTypeName : RawVal → String
  | .rnull => "NoneType"
  | .rbool _ => "bool"
  | .rint _ => "int"
  | .rnum _ _ => "float"
  | .rstr _ => "str"
  | .rlist _ => "list"
  | .rdict _ => "dict"

/-- Render the decimal numeral `m * 10^(-e)` the way `str()` renders the
float it denotes (always with a decimal point, e.g. `str(0.25) = "0.25"`,
`str(2.0) = "2.0"`); faithful for floats that round-trip through their
source numeral. -/
def renderDecimal (m : Int) (e : Nat) : String :=
  let sign := if m < 0 then "-" else ""
  let digits := toString m.natAbs
  if e = 0 then
    sign ++ digits ++ ".0"
  else
    let padded :=
      if digits.length ≤ e then
        String.mk (List.replicate (e + 1 - digits.length) '0') ++ digits
      else digits
    let intPart := padded.take (padded.length - e)
    let fracPart := padded.drop (padded.length - e)
    sign ++ intPart ++ "." ++ fracPart

/-- `str(v)` for a Python scalar. -/
def pyStrScalar : Value → String
  | .vInt n => toString n
  | .vNum m e => renderDecimal m e
  | .vStr s => s
  | .vBool b => if b then "True" else "False"

/-- `str(v)` for a raw value; container cases are only sketched (the
program never stringifies containers on the paths verified here). -/
def pyStrRaw : RawVal → String
  | .rnull => "None"
  | .rbool b => if b then "True" else "False"
  | .rint n => toString n
  | .rnum m e => renderDecimal m e
  | .rstr s => s
  | .rlist _ => "<list>"
  | .rdict _ => "<dict>"

/-- Characters stripped by Python `str.strip()` (the ASCII whitespace
set; the program only strips ASCII text here). -/
def isPyStripWs (c : Char) : Bool :=
  c = ' ' || c = '\t' || c = '\n' || c = '\r' || c = '\x0b' || c = '\x0c'

/-- Python `str.strip()`. -/
def pyStrip (s : String) : String :=
  String.mk ((s.data.dropWhile isPyStripWs).reverse.dropWhile isPyStripWs
    |>.reverse)

/-- ASCII lower-casing, as `str.lower()` acts on the ASCII fragment this
program emits. -/
def pyLower (s : String) : String :=
  String.mk (s.data.map Char.toLower)

/-- `needle in hay` — Python substring containment. -/
def isSubstr (needle hay : String) : Bool :=
  decide (needle.data <:+: hay.data)

/-- The single-quote character, for Python `repr` rendering. -/
def squote : Char := Char.ofNat 39

/-- Escape one character the way Python `repr` does inside a string
literal delimited by `q`. -/
def pyReprChar (q : Char) (c : Char) : List Char :=
  if c = '\\' then ['\\', '\\']
  else if c = '\n' then ['\\', 'n']
  else if c = '\r' then ['\\', 'r']
  else if c = '\t' then ['\\', 't']
  else if c = q then ['\\', q]
  else [c]

/-- The quote character `repr` picks: single quote, unless the string
contains a single quote and no double quote. -/
def pyReprQuote (s : String) : Char :=
  if s.data.contains squote && !s.data.contains '"' then '"' else squote

/-- Python `repr` of a string restricted to the fragment the program
emits (printable text): quoted with backslash / quote / control
escapes. Non-printable characters other than the three escaped control
characters are outside the modelled fragment and kept verbatim. -/
def pyRepr (s : String) : String :=
  String.mk (pyReprQuote s :: (s.data.flatMap (pyReprChar (pyReprQuote s))) ++ [pyReprQuote s])

/-! ## Command schema (`app/shared/contracts.py`) -/

/-- The `SetGlobalTarget` enumeration values. -/
def setGlobalTargets : List String := ["Clock.bpm", "Scale.default", "Root.default"]

/-- The `PlayerParam` enumeration values. -/
def playerParams : List String :=
  ["amp", "dur", "sus", "oct", "lpf", "hpf", "pan", "room", "mix", "echo",
   "delay", "chop", "sample", "rate", "detune", "drive", "shape", "blur",
   "formant", "coarse", "spin"]

/-- `PLAYER_NAME_PATTERN.fullmatch(player)` for the regex
`^[a-z][1-9][0-9]*$`. -/
def is_allowed_player_name (p : String) : Bool :=
  match p.data with
  | c :: d :: rest =>
      c.isLower && ('1' ≤ d && d ≤ '9') && rest.all Char.isDigit
  | _ => false

/-- A validated command (`PatchCommand`, the discriminated union of the
five pydantic command models). -/
inductive Cmd where
  | setGlobal (target : String) (value : Value)
  | playerAssign (player synth pattern : String) (kwargs : List (String × Value))
  | playerSet (player param : String) (value : Value)
  | playerStop (player : String)
  | clockClear
  deriving DecidableEq, Repr

/-- Convert a scalar raw value to a `Value`; `none` for containers and
null, which no scalar field accepts. `allowBool` distinguishes the
`int | float | str` unions (pydantic rejects `bool` there) from the
kwargs scalar union `int | float | str | bool`. -/
def scalarValue (allowBool : Bool) : RawVal → Option Value
  | .rint n => some (.vInt n)
  | .rnum m e => some (.vNum m e)
  | .rstr s => some (.vStr s)
  | .rbool b => if allowBool then some (.vBool b) else none
  | _ => none

/-- Validate the `player` field of a player command, producing the
pydantic error messages for the failing shapes. -/
def validatePlayerField (fields : List (String × RawVal)) :
    Except (List String) String :=
  match dictGet fields "player" with
  | none => .error ["Field required"]
  | some (.rstr p) =>
      if is_allowed_player_name p then .ok p
      else .error ["Value error, player " ++ p ++ " is not allowed"]
  | some _ => .error ["Input should be a valid string"]

/-- Validate a scalar `value` field (`int | float | str`). -/
def validateValueField (fields : List (String × RawVal)) :
    Except (List String) Value :=
  match dictGet fields "value" with
  | none => .error ["Field required"]
  | some v =>
      match scalarValue false v with
      | some w => .ok w
      | none => .error ["Input should be a valid integer, number or string"]

/-- Collect the error lists of failing components (empty when all
succeed). -/
def errsOf {α : Type} : Except (List String) α → List String
  | .ok _ => []
  | .error es => es

/-- Validate the kwargs mapping of a `player_assign`
(`dict[str, int | float | str | bool]`, defaulting to `{}`). -/
def validateKwargsField (fields : List (String × RawVal)) :
    Except (List String) (List (String × Value)) :=
  match dictGet fields "kwargs" with
  | none => .ok []
  | some (.rdict kvs) =>
      let step := fun (acc : Except (List String) (List (String × Value)))
          (kv : String × RawVal) =>
        match scalarValue true kv.2 with
        | some w =>
            match acc with
            | .ok done => .ok (done ++ [(kv.1, w)])
            | .error es => .error es
        | none =>
            match acc with
            | .ok _ => .error ["Input should be a valid integer, number, string or boolean"]
            | .error es =>
                .error (es ++ ["Input should be a valid integer, number, string or boolean"])
      kvs.foldl step (.ok [])
  | some _ => .error ["Input should be a valid dictionary"]

/-- Validate a length-bounded required string field (pydantic
`Field(min_length=1, max_length=maxLen)`). -/
def validateStrLenField (fields : List (String × RawVal)) (key : String)
    (maxLen : Nat) : Except (List String) String :=
  match dictGet fields key with
  | none => .error ["Field required"]
  | some (.rstr s) =>
      if s.length < 1 then .error ["String should have at least 1 character"]
      else if maxLen < s.length then
        .error ["String should have at most " ++ toString maxLen ++ " characters"]
      else .ok s
  | some _ => .error ["Input should be a valid string"]

/-- Validate the `target` field against the `SetGlobalTarget`
enumeration. -/
def validateTargetField (fields : List (String × RawVal)) :
    Except (List String) String :=
  match dictGet fields "target" with
  | none => .error ["Field required"]
  | some (.rstr t) =>
      if setGlobalTargets.contains t then .ok t
      else .error ["Input should be a valid SetGlobalTarget"]
  | some _ => .error ["Input should be a valid SetGlobalTarget"]

/-- Validate the `param` field against the `PlayerParam` enumeration. -/
def validateParamField (fields : List (String × RawVal)) :
    Except (List String) String :=
  match dictGet fields "param" with
  | none => .error ["Field required"]
  | some (.rstr t) =>
      if playerParams.contains t then .ok t
      else .error ["Input should be a valid PlayerParam"]
  | some _ => .error ["Input should be a valid PlayerParam"]

/-- Validate one raw entry against its command model (the pydantic
per-variant field validation, dispatched on the `op` discriminator).
Returns all of the entry's error messages (`err["msg"]` strings) on
failure. -/
def validateElem (r : RawVal) : Except (List String) Cmd :=
  match r with
  | .rdict fields =>
      match dictGet fields "op" with
      | some (.rstr "set_global") =>
          match validateTargetField fields, validateValueField fields with
          | .ok t, .ok v => .ok (.setGlobal t v)
          | t, v => .error (errsOf t ++ errsOf v)
      | some (.rstr "player_assign") =>
          match validatePlayerField fields, validateStrLenField fields "synth" 32,
              validateStrLenField fields "pattern" 256, validateKwargsField fields with
          | .ok p, .ok s, .ok pat, .ok kw => .ok (.playerAssign p s pat kw)
          | p, s, pat, kw =>
              .error (errsOf p ++ errsOf s ++ errsOf pat ++ errsOf kw)
      | some (.rstr "player_set") =>
          match validatePlayerField fields, validateParamField fields,
              validateValueField fields with
          | .ok p, .ok t, .ok v => .ok (.playerSet p t v)
          | p, t, v => .error (errsOf p ++ errsOf t ++ errsOf v)
      | some (.rstr "player_stop") =>
          match validatePlayerField fields with
          | .ok p => .ok (.playerStop p)
          | .error es => .error es
      | some (.rstr "clock_clear") => .ok .clockClear
      | some _ =>
          .error ["Input tag does not match any of the expected tags"]
      | none =>
          .error ["Unable to extract tag using discriminator 'op'"]
  | _ => .error ["Input should be a valid dictionary or instance of command"]

/-- `validate_commands` / `PatchEnvelope(commands=...)`: validate every
entry, collecting all error messages across the batch; the batch-size
validator (`at most 12`) runs only once every element validated. -/
def validate_commands (raws : List RawVal) : Except (List String) (List Cmd) :=
  let results := raws.map validateElem
  let errs := results.flatMap errsOf
  if errs.isEmpty then
    if 12 < raws.length then
      .error ["Value error, at most 12 commands are allowed per turn"]
    else
      .ok (results.filterMap fun r => match r with | .ok c => some c | .error _ => none)
  else
    .error errs

/-! ## Normalizer (`app/backend/command_normalizer.py`) -/

/-- Parameters folded into a pending assign's pattern
(`ASSIGN_PATTERN_PARAMS`). -/
def ASSIGN_PATTERN_PARAMS : List String := ["pattern", "degree", "note"]

/-- Parameters folded into a pending assign's kwargs
(`ASSIGN_KWARG_PARAMS`). -/
def ASSIGN_KWARG_PARAMS : List String :=
  ["dur", "oct", "amp", "lpf", "hpf", "pan", "room", "mix"]

/-- The normalizer's per-player accumulator (`PendingAssign`). -/
structure PendingAssign where
  synth : Option String := none
  pattern : Option String := none
  kwargs : List (String × RawVal) := []
  deriving DecidableEq, Repr

/-- Python truthiness of an optional string (`not acc.synth` /
`acc.synth or synth`): `None` and `""` are falsy. -/
def optStrTruthy : Option String → Bool
  | none => false
  | some s => s != ""

/-- The normalizer's running state: output batch, notes, and the
pending accumulators in first-creation order (`pending` +
`pending_order`, modelled as one insertion-ordered assoc list). -/
structure NormState where
  normalized : List RawVal := []
  notes : List String := []
  pending : List (String × PendingAssign) := []
  deriving DecidableEq, Repr

/-- Look up a pending accumulator. -/
def pendingGet (st : NormState) (player : String) : Option PendingAssign :=
  (st.pending.find? (fun kv => kv.1 == player)).map Prod.snd

/-- Update (or first-create, preserving first-seen order) a player's
accumulator with `f` (`get_pending` followed by in-place mutation). -/
def pendingUpdate (st : NormState) (player : String)
    (f : PendingAssign → PendingAssign) : NormState :=
  if st.pending.any (fun kv => kv.1 == player) then
    { st with pending :=
        st.pending.map (fun kv => if kv.1 == player then (player, f kv.2) else kv) }
  else
    { st with pending := st.pending ++ [(player, f {})] }

/-- `dict.update` on a kwargs mapping: upsert every pair in order. -/
def dictUpdate (base upd : List (String × RawVal)) : List (String × RawVal) :=
  upd.foldl (fun acc kv => dictSet acc kv.1 kv.2) base

/-- One iteration of the normalizer's forward pass over entry `raw` at
position `i` (0-based; notes use the 1-based position). -/
def normalizeStep (st : NormState) (i : Nat) (raw : RawVal) : NormState :=
  match raw with
  | .rdict fields =>
      let op := dictGet fields "op"
      if op == some (.rstr "set_global") &&
          dictGet fields "param" == some (.rstr "bpm") &&
          !(fields.any (fun kv => kv.1 == "target")) then
        let value := (dictGet fields "value").getD (.rint 120)
        { st with
          normalized := st.normalized ++
            [.rdict [("op", .rstr "set_global"), ("target", .rstr "Clock.bpm"),
                     ("value", value)]],
          notes := st.notes ++
            ["Repaired command #" ++ toString (i + 1) ++
             ": set_global.param=bpm -> target=Clock.bpm"] }
      else if op == some (.rstr "player_assign") then
        match dictGet fields "player" with
        | some (.rstr player) =>
            let synth0 := dictGet fields "synth"
            let repairedFromValue :=
              !(synth0.elim false truthy) &&
                (match dictGet fields "value" with
                 | some (.rstr _) => true
                 | _ => false)
            let synth : Option RawVal :=
              if repairedFromValue then dictGet fields "value" else synth0
            let st := if repairedFromValue then
                { st with notes := st.notes ++
                    ["Repaired command #" ++ toString (i + 1) ++
                     ": player_assign.value -> synth"] }
              else st
            let pattern := dictGet fields "pattern"
            let kwargsPayload :=
              match dictGet fields "kwargs" with
              | some (.rdict kvs) => kvs
              | _ => []
            match synth, pattern with
            | some (.rstr s), some (.rstr pat) =>
                { st with normalized := st.normalized ++
                    [.rdict [("op", .rstr "player_assign"), ("player", .rstr player),
                             ("synth", .rstr s), ("pattern", .rstr pat),
                             ("kwargs", .rdict kwargsPayload)]] }
            | some (.rstr s), patOpt =>
                let st := pendingUpdate st player fun acc =>
                  let acc := { acc with
                    synth := if optStrTruthy acc.synth then acc.synth else some s }
                  let acc := match patOpt with
                    | some (.rstr pat) => { acc with pattern := some pat }
                    | _ => acc
                  if kwargsPayload.isEmpty then acc
                  else { acc with kwargs := dictUpdate acc.kwargs kwargsPayload }
                { st with notes := st.notes ++
                    ["Queued malformed player_assign for " ++ player ++
                     " and waiting for missing pattern/kwargs"] }
            | _, _ =>
                { st with notes := st.notes ++
                    ["Dropped command #" ++ toString (i + 1) ++
                     ": player_assign missing usable synth"] }
        | _ =>
            { st with notes := st.notes ++
                ["Dropped command #" ++ toString (i + 1) ++
                 ": player_assign missing valid player"] }
      else if op == some (.rstr "player_set") then
        let isCutoff := dictGet fields "param" == some (.rstr "cutoff")
        let fields := if isCutoff then dictSet fields "param" (.rstr "lpf") else fields
        let st := if isCutoff then
            { st with notes := st.notes ++
                ["Repaired command #" ++ toString (i + 1) ++
                 ": player_set.param cutoff -> lpf"] }
          else st
        let value := (dictGet fields "value").getD .rnull
        match dictGet fields "player", dictGet fields "param" with
        | some (.rstr player), some (.rstr param) =>
            if (pendingGet st player).isSome then
              if ASSIGN_PATTERN_PARAMS.contains param then
                let st := pendingUpdate st player fun acc =>
                  { acc with pattern := some (pyStrRaw value) }
                { st with notes := st.notes ++
                    ["Folded command #" ++ toString (i + 1) ++ ": " ++ player ++
                     "." ++ param ++ " into player_assign.pattern"] }
              else if ASSIGN_KWARG_PARAMS.contains param then
                let st := pendingUpdate st player fun acc =>
                  { acc with kwargs := dictSet acc.kwargs param value }
                { st with notes := st.notes ++
                    ["Folded command #" ++ toString (i + 1) ++ ": " ++ player ++
                     "." ++ param ++ " into player_assign.kwargs"] }
              else
                { st with normalized := st.normalized ++ [.rdict fields] }
            else
              { st with normalized := st.normalized ++ [.rdict fields] }
        | _, _ => { st with normalized := st.normalized ++ [.rdict fields] }
      else
        { st with normalized := st.normalized ++ [.rdict fields] }
  | _ =>
      { st with notes := st.notes ++
          ["Dropped command #" ++ toString (i + 1) ++ ": expected object, got " ++
           pyTypeName raw] }

/-- The finalization pass: resolve each pending accumulator in
first-seen order. -/
def normalizeFinal (st : NormState) : List RawVal × List String :=
  let step := fun (out : List RawVal × List String) (kv : String × PendingAssign) =>
    let (player, acc) := kv
    if !optStrTruthy acc.synth then
      (out.1, out.2 ++ ["Dropped pending assign for " ++ player ++ ": missing synth"])
    else
      let (pattern, notes) :=
        if !optStrTruthy acc.pattern then
          ("[0]", out.2 ++ ["Applied default pattern for " ++ player ++ ": [0]"])
        else (acc.pattern.getD "", out.2)
      let assignCmd : RawVal :=
        .rdict [("op", .rstr "player_assign"), ("player", .rstr player),
                ("synth", .rstr (acc.synth.getD "")), ("pattern", .rstr pattern),
                ("kwargs", .rdict acc.kwargs)]
      (out.1 ++ [assignCmd],
       notes ++ ["Synthesized player_assign for " ++ player ++
                 " from malformed command group"])
  st.pending.foldl step (st.normalized, st.notes)

/-- `normalize_commands`: forward repair pass plus finalization. -/
def normalize_commands (raws : List RawVal) : List RawVal × List String :=
  let st := (raws.enum.foldl (fun st (p : Nat × RawVal) => normalizeStep st p.1 p.2)
    ({} : NormState))
  normalizeFinal st

/-! ## A model of CPython parsing (`ast.parse`) on the emitted fragment

`safety.py` calls `ast.parse` both on candidate pattern strings
(`mode="eval"`) and on the emitted program (`mode="exec"`).  The model
below implements the Python expression/statement grammar on the fragment
this program can emit (names, numeric and string literals, list / tuple /
dict / set displays, calls with keyword arguments, attributes,
subscripts, slices, unary and binary operators, boolean operators and
comparisons, `#` comments, backslash line continuations).  Constructs
outside this fragment (lambdas, comprehensions, conditional expressions,
starred arguments, triple-quoted strings, numeric underscores) are not
modelled and are treated as parse failures. -/

/-- Python source tokens. -/
inductive PTok where
  | tname (s : String)
  | tkw (s : String)
  | tnum
  | tstr
  | top (s : String)
  | tnl
  deriving DecidableEq, Repr

/-- Python's reserved keywords (soft keywords like `match` are ordinary
names). -/
def pyKeywords : List String :=
  ["False", "None", "True", "and", "as", "assert", "async", "await",
   "break", "class", "continue", "def", "del", "elif", "else", "except",
   "finally", "for", "from", "global", "if", "import", "in", "is",
   "lambda", "nonlocal", "not", "or", "pass", "raise", "return", "try",
   "while", "with", "yield"]

/-- Identifier-start characters (ASCII fragment). -/
def isIdentStart (c : Char) : Bool := c.isAlpha || c = '_'

/-- Identifier-continuation characters (ASCII fragment). -/
def isIdentChar (c : Char) : Bool := c.isAlpha || c.isDigit || c = '_'

/-- Lex the remainder of a string literal delimited by `q`; a raw
newline or the end of input before the closing quote is a lexical
error. -/
def lexStringRest (q : Char) : Nat → List Char → Option (List Char)
  | 0, _ => none
  | _, [] => none
  | fuel + 1, c :: cs =>
      if c = q then some cs
      else if c = '\n' || c = '\r' then none
      else if c = '\\' then
        match cs with
        | [] => none
        | _ :: cs' => lexStringRest q fuel cs'
      else lexStringRest q fuel cs

/-- Lex a numeric literal starting at a digit or a leading dot-digit;
returns the remaining characters. -/
def lexNumber (cs : List Char) : Option (List Char) :=
  match cs with
  | '0' :: x :: rest =>
      if x = 'x' || x = 'X' then
        let ds := rest.takeWhile (fun c => c.isDigit ||
          ('a' ≤ c && c ≤ 'f') || ('A' ≤ c && c ≤ 'F'))
        if ds.isEmpty then none else some (rest.drop ds.length)
      else if x = 'o' || x = 'O' then
        let ds := rest.takeWhile (fun c => '0' ≤ c && c ≤ '7')
        if ds.isEmpty then none else some (rest.drop ds.length)
      else if x = 'b' || x = 'B' then
        let ds := rest.takeWhile (fun c => c = '0' || c = '1')
        if ds.isEmpty then none else some (rest.drop ds.length)
      else
        some (lexDecimal cs)
  | _ => some (lexDecimal cs)
where
  /-- Decimal int/float: digits, optional fraction, optional
  well-formed exponent. -/
  lexDecimal (cs : List Char) : List Char :=
    let afterInt := cs.dropWhile Char.isDigit
    let afterFrac :=
      match afterInt with
      | '.' :: r => r.dropWhile Char.isDigit
      | _ => afterInt
    match afterFrac with
    | e :: r =>
        if e = 'e' || e = 'E' then
          let r' := match r with
            | s :: r'' => if s = '+' || s = '-' then r'' else r
            | [] => r
          let ds := r'.takeWhile Char.isDigit
          if ds.isEmpty then afterFrac else r'.drop ds.length
        else afterFrac
    | [] => afterFrac

/-- Tokenize Python source (ASCII fragment).  `depth` tracks open
brackets: newlines inside brackets are ignored, newlines at depth 0
become `tnl` tokens; `#` comments run to end of line; a backslash
immediately before a newline is a line continuation. -/
def pyTokenize : Nat → List Char → Nat → Option (List PTok)
  | 0, _, _ => none
  | _, [], _ => some []
  | fuel + 1, c :: cs, depth =>
      if c = ' ' || c = '\t' || c = '\x0c' then
        pyTokenize fuel cs depth
      else if c = '\n' || c = '\r' then
        if depth = 0 then
          (pyTokenize fuel cs depth).map (.tnl :: ·)
        else pyTokenize fuel cs depth
      else if c = '\\' then
        match cs with
        | d :: cs' =>
            if d = '\n' || d = '\r' then pyTokenize fuel cs' depth else none
        | [] => none
      else if c = '#' then
        pyTokenize fuel (cs.dropWhile (fun d => d ≠ '\n' && d ≠ '\r')) depth
      else if isIdentStart c then
        let ident := c :: cs.takeWhile isIdentChar
        let s := String.mk ident
        let tok := if pyKeywords.contains s then PTok.tkw s else PTok.tname s
        (pyTokenize fuel (cs.drop (ident.length - 1)) depth).map (tok :: ·)
      else if c.isDigit then
        match lexNumber (c :: cs) with
        | none => none
        | some rest => (pyTokenize fuel rest depth).map (.tnum :: ·)
      else if c = '.' && (cs.head?.elim false Char.isDigit) then
        match lexNumber (c :: cs) with
        | none => none
        | some rest => (pyTokenize fuel rest depth).map (.tnum :: ·)
      else if c = squote || c = '"' then
        match lexStringRest c cs.length cs with
        | none => none
        | some rest => (pyTokenize fuel rest depth).map (.tstr :: ·)
      else
        let two := String.mk (c :: cs.take 1)
        if ["**", "//", "<<", ">>", "<=", ">=", "==", "!=", "->", ":="].contains two then
          (pyTokenize fuel (cs.drop 1) depth).map (.top two :: ·)
        else
          let one := String.mk [c]
          if ["(", "[", "\x7b"].contains one then
            (pyTokenize fuel cs (depth + 1)).map (.top one :: ·)
          else if [")", "]", "\x7d"].contains one then
            (pyTokenize fuel cs (depth - 1)).map (.top one :: ·)
          else if ["+", "-", "*", "/", "%", "@", "&", "|", "^", "~", "<",
                   ">", ",", ":", ".", "="].contains one then
            (pyTokenize fuel cs depth).map (.top one :: ·)
          else none

/-- Python expression AST nodes for the modelled fragment (the
constructor names mirror the `ast` node class names that
`ALLOWED_AST_NODES` enumerates; operator names are carried as
strings). -/
inductive PExpr where
  | pname (s : String)
  | pconst
  | plist (xs : List PExpr)
  | ptuple (xs : List PExpr)
  | pdict (pairs : List (PExpr × PExpr))
  | psetDisp (xs : List PExpr)
  | pcall (f : PExpr) (args : List PExpr) (kwargs : List (String × PExpr))
  | pbinop (o : String) (a b : PExpr)
  | punop (o : String) (a : PExpr)
  | pboolop (o : String) (a b : PExpr)
  | pcompare (a : PExpr) (pairs : List (String × PExpr))
  | pattrib (a : PExpr) (fieldName : String)
  | psub (a : PExpr) (idx : PExpr)
  | pslice (lo hi step : Option PExpr)
  deriving Repr

/-- Python statements on the emitted fragment. -/
inductive PStmt where
  | passign (target value : PExpr)
  | pexprStmt (e : PExpr)
  deriving Repr

/-- Binary operator tokens by precedence level (level 6 binds
loosest). -/
def binOpsAt : Nat → List (String × String)
  | 1 => [("*", "Mult"), ("/", "Div"), ("//", "FloorDiv"), ("%", "Mod"),
          ("@", "MatMult")]
  | 2 => [("+", "Add"), ("-", "Sub")]
  | 3 => [("<<", "LShift"), (">>", "RShift")]
  | 4 => [("&", "BitAnd")]
  | 5 => [("^", "BitXor")]
  | 6 => [("|", "BitOr")]
  | _ => []

/-- Comparison operator at the head of the token stream, with the `ast`
operator node name. -/
def cmpOpHead : List PTok → Option (String × List PTok)
  | .top "<" :: r => some ("Lt", r)
  | .top ">" :: r => some ("Gt", r)
  | .top "<=" :: r => some ("LtE", r)
  | .top ">=" :: r => some ("GtE", r)
  | .top "==" :: r => some ("Eq", r)
  | .top "!=" :: r => some ("NotEq", r)
  | .tkw "in" :: r => some ("In", r)
  | .tkw "is" :: .tkw "not" :: r => some ("IsNot", r)
  | .tkw "is" :: r => some ("Is", r)
  | .tkw "not" :: .tkw "in" :: r => some ("NotIn", r)
  | _ => none

mutual

/-- Expression at a boolean-`or` level (the top of the modelled
expression grammar). -/
def parseTest : Nat → List PTok → Option (PExpr × List PTok)
  | 0, _ => none
  | fuel + 1, ts => do
      let (a, ts) ← parseAndT fuel ts
      parseOrRest fuel a ts

def parseOrRest : Nat → PExpr → List PTok → Option (PExpr × List PTok)
  | 0, _, _ => none
  | fuel + 1, a, ts =>
      match ts with
      | .tkw "or" :: r => do
          let (b, ts') ← parseAndT fuel r
          parseOrRest fuel (.pboolop "Or" a b) ts'
      | _ => some (a, ts)

def parseAndT : Nat → List PTok → Option (PExpr × List PTok)
  | 0, _ => none
  | fuel + 1, ts => do
      let (a, ts) ← parseNotT fuel ts
      parseAndRest fuel a ts

def parseAndRest : Nat → PExpr → List PTok → Option (PExpr × List PTok)
  | 0, _, _ => none
  | fuel + 1, a, ts =>
      match ts with
      | .tkw "and" :: r => do
          let (b, ts') ← parseNotT fuel r
          parseAndRest fuel (.pboolop "And" a b) ts'
      | _ => some (a, ts)

def parseNotT : Nat → List PTok → Option (PExpr × List PTok)
  | 0, _ => none
  | fuel + 1, ts =>
      match ts with
      | .tkw "not" :: r => do
          let (a, ts') ← parseNotT fuel r
          some (.punop "Not" a, ts')
      | _ => parseCmpT fuel ts

def parseCmpT : Nat → List PTok → Option (PExpr × List PTok)
  | 0, _ => none
  | fuel + 1, ts => do
      let (a, ts) ← parseBin fuel 6 ts
      parseCmpRest fuel a [] ts

def parseCmpRest : Nat → PExpr → List (String × PExpr) → List PTok →
    Option (PExpr × List PTok)
  | 0, _, _, _ => none
  | fuel + 1, a, acc, ts =>
      match cmpOpHead ts with
      | some (o, r) => do
          let (b, ts') ← parseBin fuel 6 r
          parseCmpRest fuel a (acc ++ [(o, b)]) ts'
      | none =>
          if acc.isEmpty then some (a, ts) else some (.pcompare a acc, ts)

/-- Binary operator levels 1–6; level 0 is the unary level. -/
def parseBin : Nat → Nat → List PTok → Option (PExpr × List PTok)
  | 0, _, _ => none
  | fuel + 1, 0, ts => parseFactor fuel ts
  | fuel + 1, lvl + 1, ts => do
      let (a, ts) ← parseBin fuel lvl ts
      parseBinRest fuel (lvl + 1) a ts

def parseBinRest : Nat → Nat → PExpr → List PTok → Option (PExpr × List PTok)
  | 0, _, _, _ => none
  | fuel + 1, lvl, a, ts =>
      match ts with
      | .top o :: r =>
          match (binOpsAt lvl).lookup o with
          | some nm => do
              let (b, ts') ← parseBin fuel (lvl - 1) r
              parseBinRest fuel lvl (.pbinop nm a b) ts'
          | none => some (a, ts)
      | _ => some (a, ts)

/-- Unary `+ - ~` level. -/
def parseFactor : Nat → List PTok → Option (PExpr × List PTok)
  | 0, _ => none
  | fuel + 1, ts =>
      match ts with
      | .top "+" :: r => do
          let (a, ts') ← parseFactor fuel r
          some (.punop "UAdd" a, ts')
      | .top "-" :: r => do
          let (a, ts') ← parseFactor fuel r
          some (.punop "USub" a, ts')
      | .top "~" :: r => do
          let (a, ts') ← parseFactor fuel r
          some (.punop "Invert" a, ts')
      | _ => parsePower fuel ts

/-- `**` (right-associative, binding tighter than unary on its left
operand). -/
def parsePower : Nat → List PTok → Option (PExpr × List PTok)
  | 0, _ => none
  | fuel + 1, ts => do
      let (a, ts) ← parsePostfix fuel ts
      match ts with
      | .top "**" :: r => do
          let (b, ts') ← parseFactor fuel r
          some (.pbinop "Pow" a b, ts')
      | _ => some (a, ts)

/-- Atom followed by attribute / call / subscript trailers. -/
def parsePostfix : Nat → List PTok → Option (PExpr × List PTok)
  | 0, _ => none
  | fuel + 1, ts => do
      let (a, ts) ← parseAtom fuel ts
      parsePostRest fuel a ts

def parsePostRest : Nat → PExpr → List PTok → Option (PExpr × List PTok)
  | 0, _, _ => none
  | fuel + 1, a, ts =>
      match ts with
      | .top "." :: .tname n :: r => parsePostRest fuel (.pattrib a n) r
      | .top "." :: _ => none
      | .top "(" :: r => do
          let (args, kwargs, r') ← parseCallArgs fuel false [] [] r
          parsePostRest fuel (.pcall a args kwargs) r'
      | .top "[" :: r => do
          let (idx, r') ← parseSubContent fuel r
          parsePostRest fuel (.psub a idx) r'
      | _ => some (a, ts)

/-- Call argument list after the opening parenthesis; positional
arguments may not follow keyword arguments. -/
def parseCallArgs : Nat → Bool → List PExpr → List (String × PExpr) →
    List PTok → Option (List PExpr × List (String × PExpr) × List PTok)
  | 0, _, _, _, _ => none
  | fuel + 1, kwSeen, args, kwargs, ts =>
      match ts with
      | .top ")" :: r => some (args, kwargs, r)
      | .tname n :: .top "=" :: r => do
          let (v, ts') ← parseTest fuel r
          match ts' with
          | .top "," :: r' => parseCallArgs fuel true args (kwargs ++ [(n, v)]) r'
          | .top ")" :: r' => some (args, kwargs ++ [(n, v)], r')
          | _ => none
      | _ => do
          if kwSeen then none
          else
            let (v, ts') ← parseTest fuel ts
            match ts' with
            | .top "," :: r' => parseCallArgs fuel false (args ++ [v]) kwargs r'
            | .top ")" :: r' => some (args ++ [v], kwargs, r')
            | _ => none

/-- Comma-separated expressions terminated by the closing token
`close` (consumed); allows a trailing comma; reports whether a comma
was seen. -/
def parseItems : Nat → String → List PExpr → List PTok →
    Option (List PExpr × Bool × List PTok)
  | 0, _, _, _ => none
  | fuel + 1, close, acc, ts => do
      let (a, ts) ← parseTest fuel ts
      match ts with
      | .top o :: r =>
          if o = close then some (acc ++ [a], !acc.isEmpty, r)
          else if o = "," then
            match r with
            | .top o' :: r' =>
                if o' = close then some (acc ++ [a], true, r')
                else parseItems fuel close (acc ++ [a]) r
            | _ => parseItems fuel close (acc ++ [a]) r
          else none
      | _ => none

/-- Dict display items after the first `key : value` pair. -/
def parseDictRest : Nat → List (PExpr × PExpr) → List PTok →
    Option (List (PExpr × PExpr) × List PTok)
  | 0, _, _ => none
  | fuel + 1, acc, ts =>
      match ts with
      | .top "\x7d" :: r => some (acc, r)
      | .top "," :: .top "\x7d" :: r => some (acc, r)
      | .top "," :: r => do
          let (k, ts₁) ← parseTest fuel r
          match ts₁ with
          | .top ":" :: r₁ => do
              let (v, ts₂) ← parseTest fuel r₁
              parseDictRest fuel (acc ++ [(k, v)]) ts₂
          | _ => none
      | _ => none

/-- Subscript content up to the closing `]` (consumed): slices and/or
comma-separated indexes (a multi-item subscript is a tuple index). -/
def parseSubContent : Nat → List PTok → Option (PExpr × List PTok)
  | 0, _ => none
  | fuel + 1, ts => do
      let (items, sawComma, r) ← parseSubItems fuel [] ts
      match items, sawComma with
      | [x], false => some (x, r)
      | xs, _ => some (.ptuple xs, r)

def parseSubItems : Nat → List PExpr → List PTok →
    Option (List PExpr × Bool × List PTok)
  | 0, _, _ => none
  | fuel + 1, acc, ts => do
      let (item, ts) ← parseSliceItem fuel ts
      match ts with
      | .top "]" :: r => some (acc ++ [item], !acc.isEmpty, r)
      | .top "," :: .top "]" :: r => some (acc ++ [item], true, r)
      | .top "," :: r => parseSubItems fuel (acc ++ [item]) r
      | _ => none

/-- One subscript item: a plain expression or a slice
`[lo] : [hi] [: [step]]`. -/
def parseSliceItem : Nat → List PTok → Option (PExpr × List PTok)
  | 0, _ => none
  | fuel + 1, ts => do
      let (lo, ts) ←
        match ts with
        | .top ":" :: _ => some ((none : Option PExpr), ts)
        | _ => do
            let (e, ts') ← parseTest fuel ts
            some (some e, ts')
      match ts with
      | .top ":" :: r =>
          let (hi, r) ←
            match r with
            | .top ":" :: _ | .top "," :: _ | .top "]" :: _ =>
                some ((none : Option PExpr), r)
            | _ => do
                let (e, r') ← parseTest fuel r
                some (some e, r')
          match r with
          | .top ":" :: r₂ =>
              let (step, r₂) ←
                match r₂ with
                | .top "," :: _ | .top "]" :: _ => some ((none : Option PExpr), r₂)
                | _ => do
                    let (e, r₃) ← parseTest fuel r₂
                    some (some e, r₃)
              some (.pslice lo hi step, r₂)
          | _ => some (.pslice lo hi none, r)
      | _ =>
          match lo with
          | some e => some (e, ts)
          | none => none

/-- Atoms: names, keyword constants, literals, parenthesized forms,
displays. -/
def parseAtom : Nat → List PTok → Option (PExpr × List PTok)
  | 0, _ => none
  | fuel + 1, ts =>
      match ts with
      | .tname n :: r => some (.pname n, r)
      | .tkw k :: r =>
          if k = "True" || k = "False" || k = "None" then some (.pconst, r)
          else none
      | .tnum :: r => some (.pconst, r)
      | .tstr :: r => some (.pconst, r.dropWhile (· == .tstr))
      | .top "(" :: .top ")" :: r => some (.ptuple [], r)
      | .top "(" :: r => do
          let (items, sawComma, r') ← parseItems fuel ")" [] r
          match items, sawComma with
          | [x], false => some (x, r')
          | xs, _ => some (.ptuple xs, r')
      | .top "[" :: .top "]" :: r => some (.plist [], r)
      | .top "[" :: r => do
          let (items, _, r') ← parseItems fuel "]" [] r
          some (.plist items, r')
      | .top "\x7b" :: .top "\x7d" :: r => some (.pdict [], r)
      | .top "\x7b" :: r => do
          let (k, ts₁) ← parseTest fuel r
          match ts₁ with
          | .top ":" :: r₁ => do
              let (v, ts₂) ← parseTest fuel r₁
              let (pairs, r₂) ← parseDictRest fuel [(k, v)] ts₂
              some (.pdict pairs, r₂)
          | .top "\x7d" :: r₁ => some (.psetDisp [k], r₁)
          | .top "," :: r₁ => do
              let (items, _, r₂) ← parseItems fuel "\x7d" [k] r₁
              some (.psetDisp items, r₂)
          | _ => none
      | _ => none

end

/-- An expression list at statement / eval level: bare tuples with
optional trailing comma (`1, 2, 3`). -/
def parseTestList (fuel : Nat) (ts : List PTok) : Option (PExpr × List PTok) :=
  match parseTest fuel ts with
  | none => none
  | some (a, ts₁) => go fuel [a] ts₁
where
  go : Nat → List PExpr → List PTok → Option (PExpr × List PTok)
    | 0, _, _ => none
    | fuel + 1, acc, ts =>
        match ts with
        | .top "," :: r =>
            match parseTest fuel r with
            | some (b, ts') => go fuel (acc ++ [b]) ts'
            | none => some (.ptuple acc, r)
        | _ =>
            match acc with
            | [x] => some (x, ts)
            | xs => some (.ptuple xs, ts)

mutual

/-- Valid assignment targets (`ast` rejects assignment to anything
else with a syntax error). -/
def targetOk : PExpr → Bool
  | .pname _ => true
  | .pattrib _ _ => true
  | .psub _ _ => true
  | .ptuple xs => targetListOk xs
  | .plist xs => targetListOk xs
  | _ => false

/-- `targetOk` over element lists of tuple/list targets. -/
def targetListOk : List PExpr → Bool
  | [] => true
  | x :: xs => targetOk x && targetListOk xs

end

/-- Statement sequence of a module: newline-separated
`target = value` assignments and expression statements. -/
def parseStmts : Nat → List PTok → Option (List PStmt)
  | 0, _ => none
  | fuel + 1, ts =>
      match ts with
      | [] => some []
      | .tnl :: r => parseStmts fuel r
      | _ => do
          let (e, ts₁) ← parseTestList fuel ts
          match ts₁ with
          | .top "=" :: r => do
              if !targetOk e then none
              else
                let (v, ts₂) ← parseTestList fuel r
                match ts₂ with
                | [] => some [.passign e v]
                | .tnl :: r₂ => do
                    let rest ← parseStmts fuel r₂
                    some (.passign e v :: rest)
                | _ => none
          | [] => some [.pexprStmt e]
          | .tnl :: r => do
              let rest ← parseStmts fuel r
              some (.pexprStmt e :: rest)
          | _ => none

/-- Parser fuel large enough for any input of the given size. -/
def parseFuel (n : Nat) : Nat := 64 * n + 64

/-- `ast.parse(source, mode="eval")` on the modelled fragment: `some`
iff the source is a syntactically valid bare expression. -/
def pyParseExprSrc (s : String) : Option PExpr := do
  let toks ← pyTokenize (s.length + 1) s.data 0
  let (e, rest) ← parseTestList (parseFuel toks.length) toks
  if rest.all (· == .tnl) then some e else none

/-- `ast.parse(source, mode="exec")` on the modelled fragment. -/
def pyParseModule (s : String) : Option (List PStmt) := do
  let toks ← pyTokenize (s.length + 1) s.data 0
  parseStmts (parseFuel toks.length) toks

/-! ## Safety validator & emitter (`app/backend/safety.py`) -/

/-- `FORBIDDEN_TOKENS` (a Python set in the source; modelled as a list,
which fixes an iteration order — acceptance does not depend on it). -/
def FORBIDDEN_TOKENS : List String :=
  ["import", "open(", "exec(", "eval(", "__", "subprocess", "os.",
   "sys.", "socket", "requests"]

/-- `BinOp` operator node names in `ALLOWED_AST_NODES`. -/
def allowedBinOps : List String := ["Mult", "RShift", "Add", "Sub", "Div", "Pow"]

/-- `name.startswith("__")` (list-level, so the kernel can evaluate it). -/
def isDunder (s : String) : Bool := ['_', '_'].isPrefixOf s.data

/-- The `ast.walk` allow-list and dunder checks of
`validate_emitted_python`, fused into one acceptance predicate: every
node's class is in `ALLOWED_AST_NODES`, no attribute access and no name
starts with a double underscore.  Fuel-based so the kernel can evaluate
it; the fuel passed by `validate_emitted_python` exceeds any AST depth
its parser can produce from the source. -/
def exprOkF : Nat → PExpr → Bool
  | 0, _ => false
  | fuel + 1, e =>
      match e with
      | .pname n => !(isDunder n)
      | .pconst => true
      | .plist xs => xs.all (exprOkF fuel)
      | .ptuple xs => xs.all (exprOkF fuel)
      | .pdict ps => ps.all (fun kv => exprOkF fuel kv.1 && exprOkF fuel kv.2)
      | .psetDisp _ => false
      | .pcall f args kwargs =>
          exprOkF fuel f && args.all (exprOkF fuel) &&
            kwargs.all (fun kv => exprOkF fuel kv.2)
      | .pbinop o a b => allowedBinOps.contains o && exprOkF fuel a && exprOkF fuel b
      | .punop o a => (o == "USub" || o == "UAdd") && exprOkF fuel a
      | .pboolop _ _ _ => false
      | .pcompare _ _ => false
      | .pattrib a f => !(isDunder f) && exprOkF fuel a
      | .psub a i => exprOkF fuel a && exprOkF fuel i
      | .pslice lo hi step =>
          lo.all (exprOkF fuel) && hi.all (exprOkF fuel) && step.all (exprOkF fuel)
termination_by structural fuel => fuel

/-- `stmtOk` over the two allowed statement forms (`Assign`, `Expr`). -/
def stmtOkF (fuel : Nat) : PStmt → Bool
  | .passign t v => exprOkF fuel t && exprOkF fuel v
  | .pexprStmt e => exprOkF fuel e

/-- Outcome of `validate_emitted_python`: besides acceptance, it can
raise `SafetyError` (caught by `validate_and_emit`) or let
`ast.parse`'s `SyntaxError` escape (uncaught by `validate_and_emit`). -/
inductive EmitErr where
  | safetyErr (msg : String)
  | parseErr
  deriving DecidableEq, Repr

/-- `validate_emitted_python(source)`: the case-insensitive forbidden
token scan, then `ast.parse`, then the allow-list / dunder walk.  The
walk's error message names the first offending node in walk order; the
model reports a fixed message (acceptance is order-independent). -/
def validate_emitted_python (source : String) : Except EmitErr Unit :=
  match FORBIDDEN_TOKENS.find? (fun t => isSubstr t (pyLower source)) with
  | some t => .error (.safetyErr ("forbidden token found in emitted source: " ++ t))
  | none =>
      match pyParseModule source with
      | none => .error .parseErr
      | some stmts =>
          if stmts.all (stmtOkF (source.length + 2)) then .ok ()
          else .error (.safetyErr "forbidden AST node")

/-- `_to_literal(value)`. -/
def _to_literal (value : Value) : String :=
  match value with
  | .vStr s => pyRepr s
  | v => pyStrScalar v

/-- `_to_pattern_expr(pattern)`: the stripped pattern itself when it
parses as a bare expression, otherwise its `repr`. -/
def _to_pattern_expr (pattern : String) : String :=
  if pyStrip pattern = "" then pyRepr pattern
  else
    match pyParseExprSrc (pyStrip pattern) with
    | some _ => pyStrip pattern
    | none => pyRepr pattern

/-- Lexicographic (code-point) comparison of character lists — the
order Python uses to compare strings. -/
def charListLe : List Char → List Char → Bool
  | [], _ => true
  | _ :: _, [] => false
  | a :: as, b :: bs =>
      if a < b then true
      else if b < a then false
      else charListLe as bs

/-- Python string `<=` (lexicographic on code points). -/
def strLe (a b : String) : Bool := charListLe a.data b.data

/-- The kwargs item ordering of `sorted(command.kwargs.items())`:
a stable sort on the (unique) keys. -/
def sortedKwargs (kwargs : List (String × Value)) : List (String × Value) :=
  List.insertionSort (fun a b => strLe a.1 b.1 = true) kwargs

/-- One emitted line per command (the `lines.append(...)` bodies of
`emit_python`). -/
def emit_line (c : Cmd) : String :=
  match c with
  | .setGlobal t v => t ++ " = " ++ _to_literal v
  | .playerAssign p sy pat kw =>
      let patternExpr := _to_pattern_expr pat
      let kwStr := String.intercalate ", "
        ((sortedKwargs kw).map fun kv => kv.1 ++ "=" ++ _to_literal kv.2)
      if kwStr ≠ "" then
        p ++ " >> " ++ sy ++ "(" ++ patternExpr ++ ", " ++ kwStr ++ ")"
      else
        p ++ " >> " ++ sy ++ "(" ++ patternExpr ++ ")"
  | .playerSet p param v => p ++ "." ++ param ++ " = " ++ _to_literal v
  | .playerStop p => p ++ ".stop()"
  | .clockClear => "Clock.clear()"

/-- `"\n".join(lines)`. -/
def joinNL : List String → String
  | [] => ""
  | [x] => x
  | x :: xs => x ++ "\n" ++ joinNL xs

/-- The joined emitted text of a command batch. -/
def emittedText (commands : List Cmd) : String :=
  joinNL (commands.map emit_line)

/-- `emit_python(commands)`: join the per-command lines and run the
safety proof over the emitted text as a whole. -/
def emit_python (commands : List Cmd) : Except EmitErr String :=
  match validate_emitted_python (emittedText commands) with
  | .ok () => .ok (emittedText commands)
  | .error e => .error e

/-- Result of `validate_and_emit`: either the returned triple, or an
uncaught exception escaping the function (`SyntaxError` from
`ast.parse` is caught by neither `except` clause). -/
inductive ApplyResult where
  | returned (commands : List Cmd) (emitted : String) (errors : List String)
  | raised
  deriving DecidableEq, Repr

/-- `validate_and_emit(raw_commands)`. -/
def validate_and_emit (raws : List RawVal) : ApplyResult :=
  match validate_commands raws with
  | .error errs => .returned [] "" errs
  | .ok cs =>
      match emit_python cs with
      | .ok emitted => .returned cs emitted []
      | .error (.safetyErr msg) => .returned [] "" [msg]
      | .error .parseErr => .raised

/-! ## Session state & revert engine (`app/backend/main.py`,
`_compute_revert`)

The Python per-player state is one dict holding the bookkeeping keys
`"synth"`, `"pattern"`, `"kwargs"`, `"last_assign_at"` next to the
flattened per-parameter slots.  It is modelled as a record whose
`params` field holds the flattened slots; this is faithful as long as
parameter and kwargs names stay disjoint from the bookkeeping keys,
which schema validation guarantees (`PlayerParam` contains none of
them) and which the revert theorems assume.  `last_assign_at` and the
wall-clock value of `clock_started_at` are time stamps and are not
modelled beyond the started/not-started flag. -/

/-- Lookup in a `Value` assoc map (Python dict read). -/
def vLookup (m : List (String × Value)) (k : String) : Option Value :=
  (m.find? (fun kv => kv.1 == k)).map Prod.snd

/-- Upsert in a `Value` assoc map (Python dict write). -/
def vUpsert (m : List (String × Value)) (k : String) (v : Value) :
    List (String × Value) :=
  if m.any (fun kv => kv.1 == k) then
    m.map (fun kv => if kv.1 == k then (k, v) else kv)
  else
    m ++ [(k, v)]

/-- Per-player session state (`state.session_state.players[player]`). -/
structure PlayerState where
  synth : Option String := none
  pattern : Option String := none
  kwargs : List (String × Value) := []
  params : List (String × Value) := []
  deriving DecidableEq, Repr

/-- Per-session state (`state.session_state`): global values, player
states, and whether the session clock has been marked started. -/
structure SessionState where
  globals : String → Option Value
  players : String → Option PlayerState
  clockStarted : Bool

/-- One step of `_compute_revert`: read the pre-update state to build
this command's revert contribution, then mutate the state. -/
def revertStep (s : SessionState) (c : Cmd) : SessionState × List Cmd :=
  match c with
  | .setGlobal t v =>
      let rev := match s.globals t with
        | some pv => [Cmd.setGlobal t pv]
        | none => []
      ({ s with globals := fun t' => if t' = t then some v else s.globals t' }, rev)
  | .playerSet p k v =>
      let ps := (s.players p).getD {}
      let rev := match vLookup ps.params k with
        | some pv => [Cmd.playerSet p k pv]
        | none => []
      let ps' := { ps with kwargs := vUpsert ps.kwargs k v,
                           params := vUpsert ps.params k v }
      ({ s with players := fun q => if q = p then some ps' else s.players q }, rev)
  | .playerAssign p sy pat kw =>
      let ps := (s.players p).getD {}
      let rev :=
        if optStrTruthy ps.synth && optStrTruthy ps.pattern then
          [Cmd.playerAssign p (ps.synth.getD "") (ps.pattern.getD "") ps.kwargs]
        else
          [Cmd.playerStop p]
      let ps' : PlayerState :=
        { synth := some sy, pattern := some pat, kwargs := kw, params := kw }
      ({ s with players := fun q => if q = p then some ps' else s.players q,
                clockStarted := true }, rev)
  | .playerStop p =>
      let ps := (s.players p).getD {}
      let rev :=
        if optStrTruthy ps.synth && optStrTruthy ps.pattern then
          [Cmd.playerAssign p (ps.synth.getD "") (ps.pattern.getD "") ps.kwargs]
        else []
      ({ s with players := fun q => if q = p then none else s.players q }, rev)
  | .clockClear => ({ s with clockStarted := false }, [])

/-- `_compute_revert(commands)`: fold the batch in forward order,
mutating the session state and concatenating the per-command revert
contributions in that same forward order. -/
def _compute_revert : SessionState → List Cmd → SessionState × List Cmd
  | s, [] => (s, [])
  | s, c :: cs =>
      let sr := revertStep s c
      let rest := _compute_revert sr.1 cs
      (rest.1, sr.2 ++ rest.2)

/-! ## JSON extraction (`app/backend/llm_service.py`)

A model of the `json` module on JSON text (`json.loads` and
`JSONDecoder.raw_decode`), and of `_extract_json_payloads` /
`_extract_json_payload`. -/

/-- Decoded JSON values.  `jnum m e` is a float decoded from a numeral
with mantissa `m` and decimal exponent `e` (floats are kept as the
decoded numeral; `jint` is a JSON integer, which `json.loads` decodes
to a Python int). -/
inductive Json where
  | jnull
  | jbool (b : Bool)
  | jint (n : Int)
  | jnum (m : Int) (e : Int)
  | jstr (s : String)
  | jarr (xs : List Json)
  | jobj (fields : List (String × Json))
  deriving Repr

/-- JSON whitespace. -/
def isJsonWs (c : Char) : Bool :=
  c = ' ' || c = '\t' || c = '\n' || c = '\r'

/-- Decode the body of a JSON string literal (after the opening quote),
returning the decoded text and the remaining input; control characters
are rejected as `json.loads` does in strict mode.  `\uXXXX` escapes are
decoded to the corresponding code point (surrogate pairing is outside
the modelled fragment). -/
def parseJsonString : Nat → List Char → Option (List Char × List Char)
  | 0, _ => none
  | _, [] => none
  | fuel + 1, c :: cs =>
      if c = '"' then some ([], cs)
      else if c.toNat < 32 then none
      else if c = '\\' then
        match cs with
        | [] => none
        | e :: cs' =>
            let dec : Option (Char × List Char) :=
              if e = '"' then some ('"', cs')
              else if e = '\\' then some ('\\', cs')
              else if e = '/' then some ('/', cs')
              else if e = 'b' then some ('\x08', cs')
              else if e = 'f' then some ('\x0c', cs')
              else if e = 'n' then some ('\n', cs')
              else if e = 'r' then some ('\r', cs')
              else if e = 't' then some ('\t', cs')
              else if e = 'u' then
                match cs' with
                | h1 :: h2 :: h3 :: h4 :: cs'' =>
                    let hexVal := fun (d : Char) =>
                      if d.isDigit then some (d.toNat - 48)
                      else if 'a' ≤ d && d ≤ 'f' then some (d.toNat - 87)
                      else if 'A' ≤ d && d ≤ 'F' then some (d.toNat - 55)
                      else none
                    match hexVal h1, hexVal h2, hexVal h3, hexVal h4 with
                    | some a, some b, some c3, some d4 =>
                        some (Char.ofNat (((a * 16 + b) * 16 + c3) * 16 + d4), cs'')
                    | _, _, _, _ => none
                | _ => none
              else none
            match dec with
            | none => none
            | some (d, rest) =>
                (parseJsonString fuel rest).map fun (body, r) => (d :: body, r)
      else
        (parseJsonString fuel cs).map fun (body, r) => (c :: body, r)

/-- Decode a JSON number per the strict JSON grammar
(`-? (0 | [1-9][0-9]*) (. [0-9]+)? ([eE][+-]?[0-9]+)?`). -/
def parseJsonNumber (cs : List Char) : Option (Json × List Char) :=
  let (neg, cs₁) := match cs with
    | '-' :: r => (true, r)
    | _ => (false, cs)
  match cs₁ with
  | [] => none
  | d :: _ =>
      if !d.isDigit then none
      else
        let intDigits := if d = '0' then ['0'] else cs₁.takeWhile Char.isDigit
        let cs₂ := cs₁.drop intDigits.length
        let (fracDigits, cs₃) := match cs₂ with
          | '.' :: r =>
              let ds := r.takeWhile Char.isDigit
              (ds, r.drop ds.length)
          | _ => ([], cs₂)
        if cs₂ ≠ cs₃ && fracDigits.isEmpty then none
        else
          let (expOk, expNeg, expDigits, cs₄) := match cs₃ with
            | e :: r =>
                if e = 'e' || e = 'E' then
                  let (en, r') := match r with
                    | '+' :: r'' => (false, r'')
                    | '-' :: r'' => (true, r'')
                    | _ => (false, r)
                  let ds := r'.takeWhile Char.isDigit
                  (!ds.isEmpty, en, ds, r'.drop ds.length)
                else (true, false, [], cs₃)
            | [] => (true, false, [], cs₃)
          if !expOk then none
          else
            let digitsVal := fun (ds : List Char) =>
              ds.foldl (fun acc d => acc * 10 + (d.toNat - 48)) 0
            let mAbs : Nat := digitsVal (intDigits ++ fracDigits)
            let m : Int := if neg then -(mAbs : Int) else (mAbs : Int)
            let expVal : Int :=
              (if expNeg then -(digitsVal expDigits : Int) else (digitsVal expDigits : Int))
            if fracDigits.isEmpty && expDigits.isEmpty &&
                (match cs₃ with | e :: _ => !(e = 'e' || e = 'E') | [] => true) then
              some (.jint m, cs₂)
            else
              some (.jnum m (expVal - fracDigits.length), cs₄)

mutual

/-- Decode one JSON value starting at the head of the input (no leading
whitespace skip, as `JSONDecoder.raw_decode` behaves), returning the
remaining input. -/
def parseJsonValue : Nat → List Char → Option (Json × List Char)
  | 0, _ => none
  | fuel + 1, cs =>
      match cs with
      | 'n' :: 'u' :: 'l' :: 'l' :: r => some (.jnull, r)
      | 't' :: 'r' :: 'u' :: 'e' :: r => some (.jbool true, r)
      | 'f' :: 'a' :: 'l' :: 's' :: 'e' :: r => some (.jbool false, r)
      | '"' :: r =>
          (parseJsonString r.length r).map fun (body, rest) =>
            (.jstr (String.mk body), rest)
      | '[' :: r =>
          let r₁ := r.dropWhile isJsonWs
          match r₁ with
          | ']' :: rest => some (.jarr [], rest)
          | _ => parseJsonArrayItems fuel [] r₁
      | '\x7b' :: r =>
          let r₁ := r.dropWhile isJsonWs
          match r₁ with
          | '\x7d' :: rest => some (.jobj [], rest)
          | _ => parseJsonObjectItems fuel [] r₁
      | _ => parseJsonNumber cs

/-- Array items (first item expected at the head, whitespace already
skipped). -/
def parseJsonArrayItems (fuel : Nat) (acc : List Json) (cs : List Char) :
    Option (Json × List Char) :=
  match fuel with
  | 0 => none
  | fuel + 1 => do
      let (v, rest) ← parseJsonValue fuel cs
      let rest := rest.dropWhile isJsonWs
      match rest with
      | ']' :: r => some (.jarr (acc ++ [v]), r)
      | ',' :: r => parseJsonArrayItems fuel (acc ++ [v]) (r.dropWhile isJsonWs)
      | _ => none

/-- Object members (first key expected at the head, whitespace already
skipped). -/
def parseJsonObjectItems (fuel : Nat) (acc : List (String × Json))
    (cs : List Char) : Option (Json × List Char) :=
  match fuel with
  | 0 => none
  | fuel + 1 =>
      match cs with
      | '"' :: r => do
          let (key, rest) ← parseJsonString r.length r
          let rest := rest.dropWhile isJsonWs
          match rest with
          | ':' :: r₁ => do
              let (v, rest₁) ← parseJsonValue fuel (r₁.dropWhile isJsonWs)
              let rest₁ := rest₁.dropWhile isJsonWs
              match rest₁ with
              | '\x7d' :: r₂ => some (.jobj (acc ++ [(String.mk key, v)]), r₂)
              | ',' :: r₂ =>
                  parseJsonObjectItems fuel (acc ++ [(String.mk key, v)])
                    (r₂.dropWhile isJsonWs)
              | _ => none
          | _ => none
      | _ => none

end

/-- `json.loads(s)`: the whole input must be one JSON document
surrounded by optional whitespace. -/
def jsonLoads (s : String) : Option Json :=
  let cs := s.data.dropWhile isJsonWs
  match parseJsonValue (cs.length + 1) cs with
  | some (v, rest) => if (rest.dropWhile isJsonWs).isEmpty then some v else none
  | none => none

/-- `JSONDecoder().raw_decode(s)`: decode a document at position 0 and
ignore the remainder. -/
def rawDecode (s : String) : Option Json :=
  (parseJsonValue (s.length + 1) s.data).map Prod.fst

/-- `str.splitlines()` restricted to the `\n` / `\r\n` / `\r` line
boundaries. -/
def pySplitlines (s : String) : List String :=
  go s.data []
where
  go : List Char → List Char → List String
    | [], cur => if cur.isEmpty then [] else [String.mk cur.reverse]
    | '\r' :: '\n' :: r, cur => String.mk cur.reverse :: go r []
    | '\n' :: r, cur => String.mk cur.reverse :: go r []
    | '\r' :: r, cur => String.mk cur.reverse :: go r []
    | c :: r, cur => go r (c :: cur)

/-- Strategy 1: each line stripped to its first `{` or `[` and parsed
independently with `json.loads`, collecting every line that parses. -/
def lineCandidates (stripped : String) : List Json :=
  (pySplitlines stripped).filterMap fun line =>
    let candidate := pyStrip line
    if candidate = "" then none
    else
      let sliced : Option String :=
        match candidate.data.head? with
        | some c =>
            if c = '\x7b' || c = '[' then some candidate
            else
              match candidate.data.findIdx? (fun d => d = '\x7b' || d = '[') with
              | some i => some (String.mk (candidate.data.drop i))
              | none => none
        | none => none
      sliced.bind jsonLoads

/-- Strategy 2: the whole trimmed text parsed as one JSON document. -/
def wholeCandidates (stripped : String) : List Json :=
  (jsonLoads stripped).toList

/-- Strategy 3: a forward scan attempting `raw_decode` at every `{` or
`[` position. -/
def scanCandidates (stripped : String) : List Json :=
  (List.range stripped.data.length).filterMap fun idx =>
    match stripped.data.drop idx with
    | c :: _ =>
        if c = '\x7b' || c = '[' then rawDecode (String.mk (stripped.data.drop idx))
        else none
    | [] => none

/-- `_extract_json_payloads(text)`: the candidate list in strategy
priority order, or the two raising paths. -/
def _extract_json_payloads (text : String) : Except String (List Json) :=
  if pyStrip text = "" then .error "model returned empty output"
  else if (lineCandidates (pyStrip text) ++ wholeCandidates (pyStrip text) ++
      scanCandidates (pyStrip text)).isEmpty then
    .error "model output did not contain valid JSON"
  else
    .ok (lineCandidates (pyStrip text) ++ wholeCandidates (pyStrip text) ++
      scanCandidates (pyStrip text))

/-- `isinstance(payload, (list, dict))`. -/
def isContainer : Json → Bool
  | .jarr _ => true
  | .jobj _ => true
  | _ => false

/-- `_extract_json_payload(text)`: the first candidate that is an
object or array. -/
def _extract_json_payload (text : String) : Except String Json :=
  match _extract_json_payloads text with
  | .error e => .error e
  | .ok payloads =>
      match payloads.find? isContainer with
      | some p => .ok p
      | none => .error "model returned invalid JSON payload"

/-! ## Theorems -/

/-- The Example-2 input batch: an assign stub carrying its synth under
the legacy `value` field, followed by two `player_set` fragments. -/
def c6input : List RawVal :=
  [ .rdict [("op", .rstr "player_assign"), ("player", .rstr "p1"),
            ("value", .rstr "pluck")],
    .rdict [("op", .rstr "player_set"), ("player", .rstr "p1"),
            ("param", .rstr "degree"), ("value", .rstr "[0,2,4,2]")],
    .rdict [("op", .rstr "player_set"), ("player", .rstr "p1"),
            ("param", .rstr "dur"), ("value", .rnum 25 2)] ]

/-- The completed assign the normalizer synthesizes for Example 2. -/
def c6expected : RawVal :=
  .rdict [("op", .rstr "player_assign"), ("player", .rstr "p1"),
          ("synth", .rstr "pluck"), ("pattern", .rstr "[0,2,4,2]"),
          ("kwargs", .rdict [("dur", .rnum 25 2)])]

/-- C6: on the batch `[assign stub for p1 with value "pluck",
player_set p1.degree = "[0,2,4,2]", player_set p1.dur = 0.25]`,
`normalize_commands` queues the stub, folds the later set entries into
the accumulator, and finalization synthesizes a single completed
`player_assign` — the output's last (and only) entry — with synth
`"pluck"`, pattern `"[0,2,4,2]"` and kwargs containing `dur: 0.25`. -/
theorem C6_normalize_folds_assign_group :
    (normalize_commands c6input).1 = [c6expected] ∧
    (normalize_commands c6input).1.getLast? = some c6expected ∧
    dictGet [("dur", RawVal.rnum 25 2)] "dur" = some (.rnum 25 2) := by
  decide

/-- A raw value's `player` field is a Python string. -/
def isStrVal : Option RawVal → Bool
  | some (.rstr _) => true
  | _ => false

/-- C10: a `player_assign` entry whose `player` field is missing or not
a string is dropped with a note by the normalizer's forward pass — even
when usable `synth`/`pattern` fields are present — leaving the output
batch and the pending accumulators untouched. -/
theorem C10_assign_without_player_dropped (st : NormState) (i : Nat)
    (fields : List (String × RawVal))
    (hop : dictGet fields "op" = some (.rstr "player_assign"))
    (hpl : isStrVal (dictGet fields "player") = false) :
    normalizeStep st i (.rdict fields) =
      { st with notes := st.notes ++
          ["Dropped command #" ++ toString (i + 1) ++
           ": player_assign missing valid player"] } := by
  have h1 : (some (RawVal.rstr "player_assign") ==
      some (RawVal.rstr "set_global")) = false := by decide
  have h2 : (some (RawVal.rstr "player_assign") ==
      some (RawVal.rstr "player_assign")) = true := by decide
  simp only [normalizeStep]
  rw [hop]
  rw [if_neg (by simp [h1]), if_pos (by simp [h2])]
  match hp : dictGet fields "player" with
  | none => rfl
  | some .rnull => rfl
  | some (.rbool b) => rfl
  | some (.rint n) => rfl
  | some (.rnum m e) => rfl
  | some (.rstr s) => rw [hp] at hpl; simp [isStrVal] at hpl
  | some (.rlist xs) => rfl
  | some (.rdict fs) => rfl

/-- Witness for C10: a concrete `player_assign` with an integer
`player` and usable synth/pattern is dropped with only the note
appended. -/
theorem C10_witness :
    normalizeStep {} 0 (.rdict [("op", .rstr "player_assign"),
        ("player", .rint 1), ("synth", .rstr "pluck"),
        ("pattern", .rstr "[0]")]) =
      { (({} : NormState)) with notes :=
          ["Dropped command #1: player_assign missing valid player"] } :=
  C10_assign_without_player_dropped {} 0 _ (by decide) (by decide)

/-- The emitted text of `[p1.amp = 'exec']`: accepted by the safety
proof while containing the bare word of a blocked token. -/
def c2text : String := "p1.amp = " ++ pyRepr "exec"

/-- Counterexample to C2 as stated: the block-list tokens are
`"exec("`, `"os."`, … — not the bare words — so the safety proof
accepts emitted text (here produced by the emitter itself from a
schema-valid command) that contains `exec` as a case-insensitive
substring. -/
theorem C2_counterexample :
    emit_python [Cmd.playerSet "p1" "amp" (.vStr "exec")] = .ok c2text ∧
    validate_emitted_python c2text = .ok () ∧
    isSubstr "exec" (pyLower c2text) = true :=
  ⟨by decide, by decide, by decide⟩


/-- C2 (amended): for every text the safety proof accepts, none of the
exact block-list tokens — `import`, `open(`, `exec(`, `eval(`, `__`,
`subprocess`, `os.`, `sys.`, `socket`, `requests` — occurs in it as a
case-insensitive substring. -/
theorem C2_accepted_text_has_no_forbidden_token (src : String)
    (h : validate_emitted_python src = .ok ()) :
    ∀ tok ∈ FORBIDDEN_TOKENS, isSubstr tok (pyLower src) = false := by
  intro tok htok
  unfold validate_emitted_python at h
  cases hf : FORBIDDEN_TOKENS.find? (fun t => isSubstr t (pyLower src)) with
  | some t => rw [hf] at h; exact absurd h (by simp)
  | none =>
      have hnone := List.find?_eq_none.mp hf tok htok
      simpa using hnone

/-- Witness for C2 (amended) at the emitted line `Clock.bpm = 120`. -/
theorem C2_witness :
    validate_emitted_python "Clock.bpm = 120" = .ok () ∧
    isSubstr "import" (pyLower "Clock.bpm = 120") = false :=
  ⟨by decide, C2_accepted_text_has_no_forbidden_token "Clock.bpm = 120" (by decide)
      "import" (by decide)⟩


/-- Each `pyReprChar` escape is nonempty. -/
theorem pyReprChar_length_pos (q c : Char) : 1 ≤ (pyReprChar q c).length := by
  unfold pyReprChar
  split <;> try simp
  split <;> try simp
  split <;> try simp
  split <;> try simp
  split <;> simp

/-- `repr` output is strictly longer than the input (two quotes plus at
least one character per input character). -/
theorem pyRepr_length (s : String) : s.length + 2 ≤ (pyRepr s).length := by
  have h : ∀ l : List Char, ∀ q, l.length ≤ (l.flatMap (pyReprChar q)).length := by
    intro l q
    induction l with
    | nil => simp
    | cons c cs ih =>
        have := pyReprChar_length_pos q c
        simp only [List.flatMap_cons, List.length_append, List.length_cons]
        omega
  have hs := h s.data (pyReprQuote s)
  unfold pyRepr
  simp only [String.length, List.length_cons, List.length_append, List.length_nil]
  omega

/-- Stripping never lengthens a string. -/
theorem pyStrip_length (s : String) : (pyStrip s).length ≤ s.length := by
  unfold pyStrip
  have hdw : ∀ (l : List Char), (l.dropWhile isPyStripWs).length ≤ l.length := by
    intro l
    induction l with
    | nil => simp [List.dropWhile]
    | cons c cs ih =>
        by_cases h : isPyStripWs c <;> simp [List.dropWhile, h] <;> omega
  show (String.mk _).length ≤ s.length
  simp only [String.length, List.length_reverse]
  calc ((s.data.dropWhile isPyStripWs).reverse.dropWhile isPyStripWs).length
      ≤ (s.data.dropWhile isPyStripWs).reverse.length := hdw _
    _ = (s.data.dropWhile isPyStripWs).length := by simp
    _ ≤ s.data.length := hdw _

/-- A string's `repr` is never the string's own stripped text (it is
strictly longer). -/
theorem pyRepr_ne_pyStrip (s : String) : pyRepr s ≠ pyStrip s := by
  intro h
  have h1 := pyRepr_length s
  have h2 := pyStrip_length s
  rw [h] at h1
  omega

/-- C4: the emitter renders a player-assign pattern unquoted exactly
when its stripped text is nonempty and parses as a bare expression in
Python's expression grammar (`ast.parse(..., mode="eval")`); in every
other case it renders the `repr`-quoted string literal.  In particular
the pattern `x-(-[--])o-` fails to parse and is emitted as a quoted
string literal. -/
theorem C4_pattern_unquoted_iff_parses :
    (∀ pattern, _to_pattern_expr pattern = pyStrip pattern ↔
        (pyStrip pattern ≠ "" ∧
          (pyParseExprSrc (pyStrip pattern)).isSome = true)) ∧
    (∀ pattern, _to_pattern_expr pattern = pyStrip pattern ∨
        _to_pattern_expr pattern = pyRepr pattern) ∧
    _to_pattern_expr "x-(-[--])o-" = pyRepr "x-(-[--])o-" ∧
    (pyParseExprSrc (pyStrip "x-(-[--])o-")).isSome = false := by
  refine ⟨?_, ?_, rfl, rfl⟩
  · intro pattern
    unfold _to_pattern_expr
    by_cases hempty : pyStrip pattern = ""
    · rw [if_pos hempty]
      constructor
      · intro h
        exact absurd h (pyRepr_ne_pyStrip pattern)
      · rintro ⟨hne, -⟩
        exact absurd hempty hne
    · rw [if_neg hempty]
      cases hp : pyParseExprSrc (pyStrip pattern) with
      | some e => simp [hempty]
      | none =>
          simp only [Option.isSome_none, Bool.false_eq_true, and_false,
            iff_false]
          exact pyRepr_ne_pyStrip pattern
  · intro pattern
    unfold _to_pattern_expr
    by_cases hempty : pyStrip pattern = ""
    · simp [hempty]
    · rw [if_neg hempty]
      cases hp : pyParseExprSrc (pyStrip pattern) with
      | some e => left; rfl
      | none => right; rfl

/-- The spec's player-name grammar, stated from its words: one
lowercase letter followed by a positive integer with no leading zero
(a nonempty digit string whose first digit is not `0`). -/
def playerNameGrammar (p : String) : Prop :=
  ∃ c ds, p.data = c :: ds ∧ c.isLower = true ∧ ds ≠ [] ∧
    (∀ d ∈ ds, d.isDigit = true) ∧ ds.head? ≠ some '0'

/-- A digit position in the regex `[1-9]` is the same as "a digit other
than 0". -/
theorem char_digit_iff (d : Char) :
    (('1' ≤ d && d ≤ '9') = true) ↔ (d.isDigit = true ∧ d ≠ '0') := by
  constructor
  · intro h
    simp only [Bool.and_eq_true, decide_eq_true_eq] at h
    obtain ⟨h1, h9⟩ := h
    have h1v : '1'.val ≤ d.val := Char.le_def.mp h1
    have h9v : d.val ≤ '9'.val := Char.le_def.mp h9
    have h1' : (49 : Nat) ≤ d.val.toNat := h1v
    refine ⟨?_, ?_⟩
    · simp only [Char.isDigit, Bool.and_eq_true, decide_eq_true_eq]
      refine ⟨?_, h9v⟩
      exact (show (48 : Nat) ≤ d.val.toNat by omega : (48 : UInt32) ≤ d.val)
    · intro he; subst he; exact absurd h1 (by decide)
  · rintro ⟨hd, hz⟩
    simp only [Char.isDigit, Bool.and_eq_true, decide_eq_true_eq] at hd
    obtain ⟨h48, h57⟩ := hd
    have h48' : (48 : Nat) ≤ d.val.toNat := h48
    have h57' : d.val.toNat ≤ 57 := h57
    have hzn : d.val.toNat ≠ 48 := by
      intro h
      exact hz (Char.ext (UInt32.ext (by simpa using h)))
    simp only [Bool.and_eq_true, decide_eq_true_eq]
    refine ⟨Char.le_def.mpr ?_, Char.le_def.mpr h57⟩
    exact (show (49 : Nat) ≤ d.val.toNat by omega : '1'.val ≤ d.val)

/-- A batch contains a player-addressed command whose `player` field is
the string `"p0"`. -/
def hasP0Command (raws : List RawVal) : Prop :=
  ∃ fields, RawVal.rdict fields ∈ raws ∧
    (dictGet fields "op" = some (.rstr "player_assign") ∨
     dictGet fields "op" = some (.rstr "player_set") ∨
     dictGet fields "op" = some (.rstr "player_stop")) ∧
    dictGet fields "player" = some (.rstr "p0")

/-- A `player` field holding `"p0"` makes its entry fail validation
(with at least one error message), whichever player command it is. -/
theorem validateElem_p0_error (fields : List (String × RawVal))
    (hop : dictGet fields "op" = some (.rstr "player_assign") ∨
      dictGet fields "op" = some (.rstr "player_set") ∨
      dictGet fields "op" = some (.rstr "player_stop"))
    (hpl : dictGet fields "player" = some (.rstr "p0")) :
    errsOf (validateElem (.rdict fields)) ≠ [] := by
  have hv : validatePlayerField fields =
      .error ["Value error, player p0 is not allowed"] := by
    unfold validatePlayerField
    rw [hpl]
    decide
  rcases hop with hop | hop | hop <;>
    · simp only [validateElem]
      rw [hop, hv]
      first
      | (cases validateStrLenField fields "synth" 32 <;>
          cases validateStrLenField fields "pattern" 256 <;>
          cases validateKwargsField fields <;> simp [errsOf])
      | (cases validateParamField fields <;>
          cases validateValueField fields <;> simp [errsOf])
      | simp [errsOf]

/-- A batch containing any entry with a nonempty element error list is
rejected as a whole, returning a nonempty error list. -/
theorem validate_commands_elem_error {raws : List RawVal} {r : RawVal}
    (hr : r ∈ raws) (he : errsOf (validateElem r) ≠ []) :
    validate_commands raws = .error ((raws.map validateElem).flatMap errsOf) ∧
      (raws.map validateElem).flatMap errsOf ≠ [] := by
  have hne : (raws.map validateElem).flatMap errsOf ≠ [] := by
    intro h
    exact he (List.flatMap_eq_nil_iff.mp h (validateElem r)
      (List.mem_map_of_mem _ hr))
  refine ⟨?_, hne⟩
  unfold validate_commands
  rw [if_neg (by simpa [List.isEmpty_iff] using hne)]

/-- C5: validation accepts a player name exactly when it is one
lowercase letter followed by a positive integer with no leading zero;
consequently every batch containing a player command with player
`"p0"` is rejected by `validate_and_emit` with a nonempty error list,
an empty command list and empty emitted text. -/
theorem C5_player_name_grammar :
    (∀ p, is_allowed_player_name p = true ↔ playerNameGrammar p) ∧
    (∀ raws, hasP0Command raws →
      ∃ errs, validate_and_emit raws = .returned [] "" errs ∧ errs ≠ []) := by
  constructor
  · intro p
    unfold is_allowed_player_name playerNameGrammar
    cases hd : p.data with
    | nil => simp
    | cons c ds =>
        cases ds with
        | nil =>
            simp only [Bool.false_eq_true, false_iff]
            rintro ⟨c', ds', hds', -, hne, -, -⟩
            injection hds' with h1 h2
            exact hne h2.symm
        | cons d rest =>
            constructor
            · intro h
              simp only [Bool.and_eq_true] at h
              obtain ⟨⟨hc, hd19⟩, hrest⟩ := h
              obtain ⟨hdig, hdz⟩ := (char_digit_iff d).mp
                (by simp only [Bool.and_eq_true]; exact hd19)
              refine ⟨c, d :: rest, rfl, hc, by simp, ?_, ?_⟩
              · intro x hx
                rcases List.mem_cons.mp hx with hx | hx
                · subst hx; exact hdig
                · exact List.all_eq_true.mp hrest x hx
              · simp only [List.head?_cons, ne_eq, Option.some.injEq]
                exact hdz
            · rintro ⟨c', ds', hds', hc, -, hdig, hzero⟩
              injection hds' with h1 h2
              subst h1
              subst h2
              simp only [Bool.and_eq_true]
              have hdz : d ≠ '0' := fun he => hzero (by simp [he])
              have hd19 := (char_digit_iff d).mpr ⟨hdig d (by simp), hdz⟩
              simp only [Bool.and_eq_true] at hd19
              exact ⟨⟨hc, hd19⟩,
                List.all_eq_true.mpr fun x hx => hdig x (List.mem_cons_of_mem _ hx)⟩
  · intro raws hp0
    obtain ⟨fields, hmem, hop, hpl⟩ := hp0
    have he := validateElem_p0_error fields hop hpl
    obtain ⟨hval, hne⟩ := validate_commands_elem_error hmem he
    refine ⟨(raws.map validateElem).flatMap errsOf, ?_, hne⟩
    unfold validate_and_emit
    rw [hval]

/-- Witness for C5 at the spec's Example 3: the batch
`[{op: player_set, player: "p0", param: "amp", value: 0.2}]` is
rejected. -/
theorem C5_witness :
    ∃ errs, validate_and_emit
        [.rdict [("op", .rstr "player_set"), ("player", .rstr "p0"),
                 ("param", .rstr "amp"), ("value", .rnum 2 1)]] =
      .returned [] "" errs ∧ errs ≠ [] :=
  C5_player_name_grammar.2 _
    ⟨[("op", .rstr "player_set"), ("player", .rstr "p0"),
      ("param", .rstr "amp"), ("value", .rnum 2 1)],
      by decide, Or.inr (Or.inl (by decide)), by decide⟩

/-- An invalid entry at batch index 0 followed by a valid entry. -/
def c8batch1 : List RawVal :=
  [.rdict [("op", .rstr "player_stop"), ("player", .rstr "p0")],
   .rdict [("op", .rstr "clock_clear")]]

/-- The same invalid entry at batch index 1. -/
def c8batch2 : List RawVal :=
  [.rdict [("op", .rstr "clock_clear")],
   .rdict [("op", .rstr "player_stop"), ("player", .rstr "p0")]]

/-- Counterexample to C8 as stated: the returned violations are not
tagged with the field/command index they came from —
`validate_and_emit` keeps only each error's message string (dropping
pydantic's location), so two batches whose only violation sits at
different command indices produce identical outputs. -/
theorem C8_counterexample :
    validate_and_emit c8batch1 = validate_and_emit c8batch2 ∧
    c8batch1 ≠ c8batch2 ∧
    validate_and_emit c8batch1 =
      .returned [] "" ["Value error, player p0 is not allowed"] := by
  decide

/-- C8 (amended): when schema validation fails, `validate_and_emit`
returns the message of every violation found across all entries (not
just the first), with an empty command list and empty emitted text;
a safety-proof failure (`SafetyError`) likewise returns its message
with empty command list and empty emitted text — no partial emission
in either case.  The messages are not tagged with the field/command
index they came from. -/
theorem C8_all_violations_no_partial_emission (raws : List RawVal) :
    ((raws.map validateElem).flatMap errsOf ≠ [] →
      validate_and_emit raws =
        .returned [] "" ((raws.map validateElem).flatMap errsOf)) ∧
    (∀ cs msg, validate_commands raws = .ok cs →
      emit_python cs = .error (.safetyErr msg) →
      validate_and_emit raws = .returned [] "" [msg]) := by
  constructor
  · intro hne
    unfold validate_and_emit validate_commands
    rw [if_neg (by simpa [List.isEmpty_iff] using hne)]
  · intro cs msg hv he
    unfold validate_and_emit
    rw [hv]
    show (match emit_python cs with
      | .ok emitted => ApplyResult.returned cs emitted []
      | .error (.safetyErr m) => ApplyResult.returned [] "" [m]
      | .error .parseErr => ApplyResult.raised) = ApplyResult.returned [] "" [msg]
    rw [he]

/-- Witness for C8: a batch with two invalid entries returns both
messages; a schema-valid batch whose emitted text trips the token
check returns the safety message — empty commands and text both
times. -/
theorem C8_witness :
    validate_and_emit
        [.rdict [("op", .rstr "player_stop"), ("player", .rstr "p0")],
         .rdict [("op", .rstr "player_stop"), ("player", .rstr "q0")]] =
      .returned [] "" ["Value error, player p0 is not allowed",
                       "Value error, player q0 is not allowed"] ∧
    validate_and_emit
        [.rdict [("op", .rstr "player_assign"), ("player", .rstr "p1"),
                 ("synth", .rstr "exec"), ("pattern", .rstr "x")]] =
      .returned [] "" ["forbidden token found in emitted source: exec("] :=
  ⟨((C8_all_violations_no_partial_emission _).1 (by decide)).trans (by decide),
   (C8_all_violations_no_partial_emission _).2
     [Cmd.playerAssign "p1" "exec" "x" []]
     "forbidden token found in emitted source: exec(" (by decide) (by decide)⟩

/-- Reduction of `_extract_json_payload` once the candidate list is
known. -/
theorem extract_payload_of_payloads_ok (text : String) (L : List Json)
    (h : _extract_json_payloads text = .ok L) :
    _extract_json_payload text =
      match L.find? isContainer with
      | some p => .ok p
      | none => .error "model returned invalid JSON payload" := by
  unfold _extract_json_payload
  rw [h]

/-- Reduction of `_extract_json_payload` on the raising paths. -/
theorem extract_payload_of_payloads_err (text : String) (e : String)
    (h : _extract_json_payloads text = .error e) :
    _extract_json_payload text = .error e := by
  unfold _extract_json_payload
  rw [h]

/-- C9: JSON extraction returns the first candidate that is an object
or array, with candidates ordered by strategy priority — per-line
stripped-to-first-brace parses, then the whole trimmed text, then a
forward incremental-decode scan — and fails with an error when no
strategy yields a list or dict. -/
theorem C9_extraction_strategy_priority (text : String) :
    (∀ v, _extract_json_payload text = .ok v ↔
      (lineCandidates (pyStrip text) ++ wholeCandidates (pyStrip text) ++
        scanCandidates (pyStrip text)).find? isContainer = some v) ∧
    ((lineCandidates (pyStrip text) ++ wholeCandidates (pyStrip text) ++
        scanCandidates (pyStrip text)).find? isContainer = none →
      ∃ e, _extract_json_payload text = .error e) := by
  have hcases : (_extract_json_payloads text =
        .ok (lineCandidates (pyStrip text) ++ wholeCandidates (pyStrip text) ++
          scanCandidates (pyStrip text))) ∨
      ((∃ e, _extract_json_payloads text = .error e) ∧
        lineCandidates (pyStrip text) ++ wholeCandidates (pyStrip text) ++
          scanCandidates (pyStrip text) = []) := by
    unfold _extract_json_payloads
    by_cases hstr : pyStrip text = ""
    · right
      rw [if_pos hstr]
      refine ⟨⟨_, rfl⟩, ?_⟩
      rw [hstr]
      rfl
    · rw [if_neg hstr]
      by_cases hempty : (lineCandidates (pyStrip text) ++
          wholeCandidates (pyStrip text) ++ scanCandidates (pyStrip text)).isEmpty
      · right
        rw [if_pos hempty]
        exact ⟨⟨_, rfl⟩, List.isEmpty_iff.mp hempty⟩
      · left
        rw [if_neg hempty]
  rcases hcases with hok | ⟨⟨e, herr⟩, hnil⟩
  · have hred := extract_payload_of_payloads_ok text _ hok
    cases hf : (lineCandidates (pyStrip text) ++ wholeCandidates (pyStrip text) ++
        scanCandidates (pyStrip text)).find? isContainer with
    | some p =>
        rw [hf] at hred
        constructor
        · intro v
          rw [hred]
          constructor
          · intro h; cases h; rfl
          · intro h; cases h; rfl
        · intro h
          exact Option.noConfusion h
    | none =>
        rw [hf] at hred
        constructor
        · intro v
          rw [hred]
          constructor
          · intro h; cases h
          · intro h; cases h
        · intro _
          exact ⟨_, hred⟩
  · have hred := extract_payload_of_payloads_err text e herr
    rw [hnil]
    constructor
    · intro v
      rw [hred]
      constructor
      · intro h; cases h
      · intro h; cases h
    · intro _
      exact ⟨e, hred⟩

/-- Witness for C9: text containing no JSON at all fails with an
error. -/
theorem C9_witness :
    ∃ e, _extract_json_payload "no json here" = .error e :=
  (C9_extraction_strategy_priority "no json here").2 (by rfl)

/-- An entry exactly in its command variant's canonical shape: the
variant's fields in declaration order, satisfying the schema's
constraints. -/
def wellFormedEntry : RawVal → Bool
  | .rdict [("op", .rstr "set_global"), ("target", .rstr t), ("value", v)] =>
      setGlobalTargets.contains t && (scalarValue false v).isSome
  | .rdict [("op", .rstr "player_assign"), ("player", .rstr p),
            ("synth", .rstr sy), ("pattern", .rstr pat),
            ("kwargs", .rdict kvs)] =>
      is_allowed_player_name p && decide (1 ≤ sy.length) &&
        decide (sy.length ≤ 32) && decide (1 ≤ pat.length) &&
        decide (pat.length ≤ 256) &&
        kvs.all (fun kv => (scalarValue true kv.2).isSome)
  | .rdict [("op", .rstr "player_set"), ("player", .rstr p),
            ("param", .rstr param), ("value", v)] =>
      is_allowed_player_name p && playerParams.contains param &&
        (scalarValue false v).isSome
  | .rdict [("op", .rstr "player_stop"), ("player", .rstr p)] =>
      is_allowed_player_name p
  | .rdict [("op", .rstr "clock_clear")] => true
  | _ => false

set_option maxHeartbeats 3200000 in
/-- Stepping the normalizer over a well-formed entry with no pending
accumulators appends the entry unchanged: no note, no accumulator. -/
theorem normalizeStep_wellFormed (st : NormState) (i : Nat) (r : RawVal)
    (hr : wellFormedEntry r = true) (hp : st.pending = []) :
    normalizeStep st i r = { st with normalized := st.normalized ++ [r] } := by
  unfold wellFormedEntry at hr
  split at hr
  · -- set_global
    simp [normalizeStep, dictGet]
  · -- player_assign
    rename_i p sy pat kvs
    simp only [Bool.and_eq_true, decide_eq_true_eq] at hr
    have hsy : (sy != "") = true := by
      simp only [bne_iff_ne, ne_eq]
      intro he
      subst he
      simp at hr
    simp [normalizeStep, dictGet, truthy, hsy]
  · -- player_set
    rename_i p param v
    simp only [Bool.and_eq_true, decide_eq_true_eq] at hr
    have hcut : param ≠ "cutoff" := by
      intro he
      subst he
      simp [playerParams] at hr
    simp [normalizeStep, dictGet, pendingGet, hcut, hp]
  · -- player_stop
    simp [normalizeStep, dictGet]
  · -- clock_clear
    simp [normalizeStep, dictGet]
  · exact absurd hr (by simp)

/-- Folding the normalizer over a well-formed tail from a state with no
pending accumulators appends the tail unchanged. -/
theorem normalize_fold_wellFormed :
    ∀ (raws : List RawVal) (i : Nat) (st : NormState),
      (∀ r ∈ raws, wellFormedEntry r = true) → st.pending = [] →
      (List.enumFrom i raws).foldl (fun st p => normalizeStep st p.1 p.2) st =
        { st with normalized := st.normalized ++ raws } := by
  intro raws
  induction raws with
  | nil => intro i st _ _; simp
  | cons r rs ih =>
      intro i st h hp
      simp only [List.enumFrom, List.foldl_cons]
      rw [normalizeStep_wellFormed st i r (h r (by simp)) hp]
      rw [ih (i + 1) { st with normalized := st.normalized ++ [r] }
        (fun x hx => h x (List.mem_cons_of_mem _ hx)) hp]
      simp

/-- C7: normalizing an already-well-formed batch returns the same batch
and zero notes. -/
theorem C7_normalize_wellFormed_identity (raws : List RawVal)
    (h : ∀ r ∈ raws, wellFormedEntry r = true) :
    normalize_commands raws = (raws, []) := by
  unfold normalize_commands
  show normalizeFinal
      ((List.enumFrom 0 raws).foldl (fun st p => normalizeStep st p.1 p.2) {}) = _
  rw [normalize_fold_wellFormed raws 0 {} h rfl]
  unfold normalizeFinal
  simp

/-- Witness for C7: one canonical command of each variant passes
through untouched. -/
theorem C7_witness :
    normalize_commands
        [.rdict [("op", .rstr "set_global"), ("target", .rstr "Clock.bpm"),
                 ("value", .rint 120)],
         .rdict [("op", .rstr "player_assign"), ("player", .rstr "p1"),
                 ("synth", .rstr "pluck"), ("pattern", .rstr "[0]"),
                 ("kwargs", .rdict [("amp", .rnum 5 1)])],
         .rdict [("op", .rstr "player_set"), ("player", .rstr "p1"),
                 ("param", .rstr "dur"), ("value", .rnum 25 2)],
         .rdict [("op", .rstr "player_stop"), ("player", .rstr "p2")],
         .rdict [("op", .rstr "clock_clear")]] =
      ([.rdict [("op", .rstr "set_global"), ("target", .rstr "Clock.bpm"),
                ("value", .rint 120)],
        .rdict [("op", .rstr "player_assign"), ("player", .rstr "p1"),
                ("synth", .rstr "pluck"), ("pattern", .rstr "[0]"),
                ("kwargs", .rdict [("amp", .rnum 5 1)])],
        .rdict [("op", .rstr "player_set"), ("player", .rstr "p1"),
                ("param", .rstr "dur"), ("value", .rnum 25 2)],
        .rdict [("op", .rstr "player_stop"), ("player", .rstr "p2")],
        .rdict [("op", .rstr "clock_clear")]], []) :=
  C7_normalize_wellFormed_identity _ (by decide)

/-- Counterexample to C3 as stated: schema validation constrains only
the length of `synth` (1–32 characters), so a synth containing a
newline is a "valid entry", and its single command emits two physical
lines — the emitted text still passes the safety proof because both
lines parse into allowed nodes. -/
theorem C3_counterexample :
    validate_and_emit
        [.rdict [("op", .rstr "player_assign"), ("player", .rstr "p1"),
                 ("synth", .rstr "a\nb"), ("pattern", .rstr "x"),
                 ("kwargs", .rdict [])]] =
      .returned [Cmd.playerAssign "p1" "a\nb" "x" []] ("p1 >> a\nb(x)") [] ∧
    ("p1 >> a\nb(x)").data.count '\n' = 1 ∧
    [Cmd.playerAssign "p1" "a\nb" "x" []].length = 1 := by
  decide

/-- `validate_commands` never fails with an empty error list. -/
theorem validate_commands_error_ne (raws : List RawVal) (errs : List String)
    (h : validate_commands raws = .error errs) : errs ≠ [] := by
  unfold validate_commands at h
  by_cases he : ((raws.map validateElem).flatMap errsOf).isEmpty
  · rw [if_pos he] at h
    by_cases hlen : 12 < raws.length
    · rw [if_pos hlen] at h
      cases h
      simp
    · rw [if_neg hlen] at h
      cases h
  · rw [if_neg he] at h
    cases h
    simpa [List.isEmpty_iff] using he

/-- A successful `emit_python` returns exactly the joined per-command
lines. -/
theorem emit_python_ok_text (cs : List Cmd) (em : String)
    (h : emit_python cs = .ok em) : em = joinNL (cs.map emit_line) := by
  unfold emit_python at h
  cases hv : validate_emitted_python (emittedText cs) with
  | ok u =>
      cases u
      rw [hv] at h
      cases h
      rfl
  | error e =>
      rw [hv] at h
      cases h

/-- Newline-free parts joined with `"\n"` contain exactly one
newline between consecutive parts. -/
theorem joinNL_count (ls : List String)
    (h : ∀ l ∈ ls, l.data.count '\n' = 0) :
    (joinNL ls).data.count '\n' = ls.length - 1 := by
  induction ls with
  | nil => simp [joinNL]
  | cons x xs ih =>
      cases xs with
      | nil => simpa [joinNL] using h x (by simp)
      | cons y ys =>
          have hx := h x (by simp)
          have hrest := ih (fun l hl => h l (List.mem_cons_of_mem _ hl))
          show ((x ++ "\n" ++ joinNL (y :: ys)).data.count '\n') = _
          rw [String.data_append, String.data_append]
          rw [List.count_append, List.count_append]
          rw [hx, hrest]
          simp only [List.length_cons, List.count_cons, List.count_nil,
            beq_self_eq_true, if_true]
          omega

/-- `charListLe` is total. -/
theorem charListLe_total : ∀ a b : List Char,
    charListLe a b = true ∨ charListLe b a = true := by
  intro a
  induction a with
  | nil => intro b; left; cases b <;> rfl
  | cons x xs ih =>
      intro b
      cases b with
      | nil => right; rfl
      | cons y ys =>
          by_cases hxy : x < y
          · left
            simp [charListLe, hxy]
          · by_cases hyx : y < x
            · right
              simp [charListLe, hyx]
            · have heq : x = y := le_antisymm (not_lt.mp hyx) (not_lt.mp hxy)
              subst heq
              rcases ih ys with h | h
              · left
                simpa [charListLe, hxy] using h
              · right
                simpa [charListLe, hxy] using h

/-- `charListLe` is transitive. -/
theorem charListLe_trans : ∀ a b c : List Char,
    charListLe a b = true → charListLe b c = true → charListLe a c = true := by
  intro a
  induction a with
  | nil => intro b c _ _; cases c <;> rfl
  | cons x xs ih =>
      intro b c hab hbc
      cases b with
      | nil => exact absurd hab (by simp [charListLe])
      | cons y ys =>
          cases c with
          | nil => exact absurd hbc (by simp [charListLe])
          | cons z zs =>
              simp only [charListLe] at hab hbc ⊢
              by_cases hxy : x < y
              · by_cases hyz : y < z
                · have hxz : x < z := lt_trans hxy hyz
                  simp [hxz]
                · by_cases hzy : z < y
                  · simp only [if_neg hyz, if_pos hzy] at hbc
                    cases hbc
                  · have : y = z := le_antisymm (not_lt.mp hzy) (not_lt.mp hyz)
                    subst this
                    simp [hxy]
              · by_cases hyx : y < x
                · simp [hxy, hyx] at hab
                · have hxyeq : x = y := le_antisymm (not_lt.mp hyx) (not_lt.mp hxy)
                  subst hxyeq
                  by_cases hxz : x < z
                  · simp [hxz]
                  · by_cases hzx : z < x
                    · simp only [if_neg hxz, if_pos hzx] at hbc
                      cases hbc
                    · simp only [if_neg hxy] at hab
                      simp only [if_neg hxz, if_neg hzx] at hbc ⊢
                      exact ih ys zs hab hbc

instance : IsTotal (String × Value) (fun a b => strLe a.1 b.1 = true) :=
  ⟨fun a b => charListLe_total a.1.data b.1.data⟩

instance : IsTrans (String × Value) (fun a b => strLe a.1 b.1 = true) :=
  ⟨fun _ _ _ h1 h2 => charListLe_trans _ _ _ h1 h2⟩

/-- C3 (amended): `validate_and_emit` is deterministic (it is a pure
function of its input); on success the emitted text is exactly the
join of one emitted entry per validated command; player-assign kwargs
are rendered in lexicographically sorted key order (a permutation of
the command's kwargs) with the trailing comma/parenthesis omitted when
kwargs is empty; and whenever every per-command entry is newline-free,
the emitted text has exactly one physical line per command.  (As
stated the claim fails: a schema-valid synth may itself contain a
newline, producing two physical lines from one command.) -/
theorem C3_deterministic_emission (raws : List RawVal) (cs : List Cmd)
    (em : String) (h : validate_and_emit raws = .returned cs em []) :
    validate_and_emit raws = validate_and_emit raws ∧
    em = joinNL (cs.map emit_line) ∧
    (∀ p sy pat kw, Cmd.playerAssign p sy pat kw ∈ cs →
      ((sortedKwargs kw).map Prod.fst).Sorted (fun a b => strLe a b = true) ∧
      (sortedKwargs kw).Perm kw ∧
      (sortedKwargs kw = [] →
        emit_line (.playerAssign p sy pat kw) =
          p ++ " >> " ++ sy ++ "(" ++ _to_pattern_expr pat ++ ")")) ∧
    ((∀ c ∈ cs, (emit_line c).data.count '\n' = 0) →
      em.data.count '\n' = cs.length - 1) := by
  have hem : em = joinNL (cs.map emit_line) := by
    unfold validate_and_emit at h
    cases hv : validate_commands raws with
    | error errs =>
        rw [hv] at h
        cases h
        exact absurd rfl (validate_commands_error_ne raws _ hv)
    | ok cs0 =>
        rw [hv] at h
        revert h
        show (match emit_python cs0 with
          | .ok emitted => ApplyResult.returned cs0 emitted []
          | .error (.safetyErr m) => ApplyResult.returned [] "" [m]
          | .error .parseErr => ApplyResult.raised) =
            ApplyResult.returned cs em [] → _
        cases he : emit_python cs0 with
        | ok emitted =>
            intro h
            cases h
            exact emit_python_ok_text _ _ he
        | error e =>
            cases e with
            | safetyErr m =>
                intro h
                cases h
            | parseErr =>
                intro h
                cases h
  refine ⟨rfl, hem, ?_, ?_⟩
  · intro p sy pat kw _
    refine ⟨?_, List.perm_insertionSort _ _, ?_⟩
    · have hs := List.sorted_insertionSort
        (fun (a b : String × Value) => strLe a.1 b.1 = true) kw
      exact List.pairwise_map.mpr hs
    · intro hempty
      simp [emit_line, hempty,
        show (", ".intercalate ([] : List String)) = "" from rfl]
  · intro hfree
    rw [hem]
    have := joinNL_count (cs.map emit_line) (by
      intro l hl
      obtain ⟨c, hc, rfl⟩ := List.mem_map.mp hl
      exact hfree c hc)
    rw [this, List.length_map]

/-- A two-command batch whose assign carries two kwargs, used as the
C3 witness input. -/
def c3wraws : List RawVal :=
  [.rdict [("op", .rstr "set_global"), ("target", .rstr "Clock.bpm"),
           ("value", .rint 120)],
   .rdict [("op", .rstr "player_assign"), ("player", .rstr "p1"),
           ("synth", .rstr "pluck"), ("pattern", .rstr "[0]"),
           ("kwargs", .rdict [("dur", .rnum 25 2), ("amp", .rnum 5 1)])]]

/-- The validated commands of `c3wraws`. -/
def c3wcs : List Cmd :=
  [.setGlobal "Clock.bpm" (.vInt 120),
   .playerAssign "p1" "pluck" "[0]" [("dur", .vNum 25 2), ("amp", .vNum 5 1)]]

/-- The emitted text of `c3wraws`. -/
def c3wem : String := "Clock.bpm = 120\np1 >> pluck([0], amp=0.5, dur=0.25)"

/-- Witness for C3 (amended) on a concrete two-command batch. -/
theorem C3_witness :
    c3wem = joinNL (c3wcs.map emit_line) ∧
    ((sortedKwargs [("dur", Value.vNum 25 2), ("amp", Value.vNum 5 1)]).map
      Prod.fst).Sorted (fun a b => strLe a b = true) ∧
    c3wem.data.count '\n' = c3wcs.length - 1 :=
  have h := C3_deterministic_emission c3wraws c3wcs c3wem (by decide)
  ⟨h.2.1,
   (h.2.2.1 "p1" "pluck" "[0]" [("dur", .vNum 25 2), ("amp", .vNum 5 1)]
     (by decide)).1,
   h.2.2.2 (by decide)⟩

/-! ### C1: the revert round-trip -/

/-- Global targets a command touches. -/
def gTouchedCmd : Cmd → List String
  | .setGlobal t _ => [t]
  | _ => []

/-- Players a command touches. -/
def pTouchedCmd : Cmd → List String
  | .playerAssign p _ _ _ => [p]
  | .playerSet p _ _ => [p]
  | .playerStop p => [p]
  | _ => []

/-- Global targets a batch touches. -/
def gTouched (cs : List Cmd) : List String := cs.flatMap gTouchedCmd

/-- Players a batch touches. -/
def pTouched (cs : List Cmd) : List String := cs.flatMap pTouchedCmd

/-- The player-state dict keys reserved for bookkeeping (see the
modelling note on `PlayerState`). -/
def reservedKeys : List String := ["synth", "pattern", "kwargs", "last_assign_at"]

/-- Session-state well-formedness, as maintained by the revert engine
itself: the flattened per-parameter slots mirror the kwargs mapping,
and recorded synth/pattern strings are nonempty. -/
def WFState (s : SessionState) : Prop :=
  ∀ p ps, s.players p = some ps →
    ps.params = ps.kwargs ∧
    (∀ sy, ps.synth = some sy → sy ≠ "") ∧
    (∀ pat, ps.pattern = some pat → pat ≠ "")

/-- `previous_synth and previous_pattern` — the revert engine's
truthiness test on a player's recorded state. -/
def playerTruthy (s : SessionState) (p : String) : Bool :=
  match s.players p with
  | some ps => optStrTruthy ps.synth && optStrTruthy ps.pattern
  | none => false

/-- Every assign/stop in the batch targets a player that either has a
truthy recorded synth+pattern or is absent from the session state. -/
def stopAssignSafe (s : SessionState) (cs : List Cmd) : Prop :=
  ∀ c ∈ cs, match c with
  | Cmd.playerAssign p _ _ _ => playerTruthy s p = true ∨ s.players p = none
  | Cmd.playerStop p => playerTruthy s p = true ∨ s.players p = none
  | _ => True

/-- Schema conformance of a typed command, as validation guarantees
for applied batches: player-set params come from the `PlayerParam`
enumeration, assign synth/pattern are nonempty, and assign kwargs have
distinct keys avoiding the reserved bookkeeping keys. -/
def cmdSchemaOK : Cmd → Bool
  | .playerSet _ param _ => playerParams.contains param
  | .playerAssign _ sy pat kw =>
      (sy != "") && (pat != "") && decide ((kw.map Prod.fst).Nodup) &&
        kw.all (fun kv => !(reservedKeys.contains kv.1))
  | _ => true

/-- Read a player's flattened parameter slot. -/
def pParamRead (s : SessionState) (p k : String) : Option Value :=
  (s.players p).bind fun ps => vLookup ps.params k

/-- Read a player's recorded synth. -/
def pSynthRead (s : SessionState) (p : String) : Option String :=
  (s.players p).bind fun ps => ps.synth

/-- Read a player's recorded pattern. -/
def pPatternRead (s : SessionState) (p : String) : Option String :=
  (s.players p).bind fun ps => ps.pattern

/-- Replacing the matching entries of an assoc map makes the updated
key's lookup return the new value (when the key is present). -/
theorem vLookup_map_replace_self (k : String) (v : Value) :
    ∀ m : List (String × Value), m.any (fun kv => kv.1 == k) = true →
    vLookup (m.map (fun kv => if kv.1 == k then (k, v) else kv)) k = some v := by
  intro m
  induction m with
  | nil => intro h; simp at h
  | cons kv m ih =>
      intro h
      by_cases hk : kv.1 = k
      · simp [vLookup, List.find?_cons, hk]
      · have hb : (kv.1 == k) = false := by simpa using hk
        simp only [List.any_cons, hb, Bool.false_or] at h
        simp only [List.map_cons, hb, Bool.false_eq_true, if_false]
        simp only [vLookup, List.find?_cons, hb]
        exact ih h

/-- Appending a new entry makes the new key's lookup return the new
value (when the key was absent). -/
theorem vLookup_append_self (k : String) (v : Value) :
    ∀ m : List (String × Value), m.any (fun kv => kv.1 == k) = false →
    vLookup (m ++ [(k, v)]) k = some v := by
  intro m
  induction m with
  | nil => simp [vLookup, List.find?_cons]
  | cons kv m ih =>
      intro h
      simp only [List.any_cons, Bool.or_eq_false_iff] at h
      simp only [List.cons_append, vLookup, List.find?_cons, h.1]
      exact ih h.2

/-- Replacing the matching entries of an assoc map leaves other keys'
lookups unchanged. -/
theorem vLookup_map_replace_ne (k k' : String) (v : Value) (h : k' ≠ k) :
    ∀ m : List (String × Value),
    vLookup (m.map (fun kv => if kv.1 == k then (k, v) else kv)) k' =
      vLookup m k' := by
  intro m
  have hkk : (k == k') = false := by simpa using (h ∘ Eq.symm)
  induction m with
  | nil => rfl
  | cons kv m ih =>
      by_cases hk : kv.1 = k
      · have hb : (kv.1 == k) = true := by simpa using hk
        have hb' : (kv.1 == k') = false := by
          simp only [hk]
          exact hkk
        simp only [List.map_cons, hb, if_true, vLookup, List.find?_cons, hkk, hb']
        exact ih
      · have hb : (kv.1 == k) = false := by simpa using hk
        simp only [List.map_cons, hb, Bool.false_eq_true, if_false]
        by_cases hkv : kv.1 = k'
        · simp [vLookup, List.find?_cons, hkv]
        · have hb' : (kv.1 == k') = false := by simpa using hkv
          simp only [vLookup, List.find?_cons, hb']
          exact ih

/-- Appending a new entry leaves other keys' lookups unchanged. -/
theorem vLookup_append_ne (k k' : String) (v : Value) (h : k' ≠ k) :
    ∀ m : List (String × Value),
    vLookup (m ++ [(k, v)]) k' = vLookup m k' := by
  intro m
  have hkk : (k == k') = false := by simpa using (h ∘ Eq.symm)
  induction m with
  | nil => simp [vLookup, List.find?_cons, hkk]
  | cons kv m ih =>
      by_cases hkv : kv.1 = k'
      · simp [List.cons_append, vLookup, List.find?_cons, hkv]
      · have hb' : (kv.1 == k') = false := by simpa using hkv
        simp only [List.cons_append, vLookup, List.find?_cons, hb']
        exact ih

/-- Upserting then looking up the same key. -/
theorem vLookup_vUpsert_self (m : List (String × Value)) (k : String)
    (v : Value) : vLookup (vUpsert m k v) k = some v := by
  unfold vUpsert
  by_cases hmem : m.any (fun kv => kv.1 == k)
  · rw [if_pos hmem]
    exact vLookup_map_replace_self k v m hmem
  · rw [if_neg hmem]
    exact vLookup_append_self k v m (Bool.eq_false_iff.mpr hmem)

/-- Upserting leaves other keys' lookups unchanged. -/
theorem vLookup_vUpsert_ne (m : List (String × Value)) (k k' : String)
    (v : Value) (h : k' ≠ k) : vLookup (vUpsert m k v) k' = vLookup m k' := by
  unfold vUpsert
  by_cases hmem : m.any (fun kv => kv.1 == k)
  · rw [if_pos hmem]
    exact vLookup_map_replace_ne k k' v h m
  · rw [if_neg hmem]
    exact vLookup_append_ne k k' v h m

/-- A revert-engine step leaves untouched global targets unchanged. -/
theorem revertStep_globals_frame (s : SessionState) (c : Cmd) (t : String)
    (ht : t ∉ gTouchedCmd c) : (revertStep s c).1.globals t = s.globals t := by
  cases c with
  | setGlobal t0 v =>
      simp only [gTouchedCmd, List.mem_singleton] at ht
      simp only [revertStep]
      rw [if_neg ht]
  | playerAssign p sy pat kw => rfl
  | playerSet p k v => rfl
  | playerStop p => rfl
  | clockClear => rfl

/-- A revert-engine step leaves untouched players unchanged. -/
theorem revertStep_players_frame (s : SessionState) (c : Cmd) (p : String)
    (hp : p ∉ pTouchedCmd c) : (revertStep s c).1.players p = s.players p := by
  cases c with
  | setGlobal t0 v => rfl
  | playerAssign q sy pat kw =>
      simp only [pTouchedCmd, List.mem_singleton] at hp
      simp only [revertStep]
      rw [if_neg hp]
  | playerSet q k v =>
      simp only [pTouchedCmd, List.mem_singleton] at hp
      simp only [revertStep]
      rw [if_neg hp]
  | playerStop q =>
      simp only [pTouchedCmd, List.mem_singleton] at hp
      simp only [revertStep]
      rw [if_neg hp]
  | clockClear => rfl

/-- A revert-engine step preserves state well-formedness. -/
theorem WFState_revertStep (s : SessionState) (c : Cmd) (hWF : WFState s)
    (hok : cmdSchemaOK c = true) : WFState (revertStep s c).1 := by
  cases c with
  | setGlobal t0 v => exact hWF
  | clockClear => exact hWF
  | playerStop q =>
      intro p ps hps
      simp only [revertStep] at hps
      by_cases hq : p = q
      · rw [if_pos hq] at hps
        cases hps
      · rw [if_neg hq] at hps
        exact hWF p ps hps
  | playerSet q k v =>
      intro p ps hps
      simp only [revertStep] at hps
      by_cases hq : p = q
      · rw [if_pos hq] at hps
        injection hps with hps
        subst hps
        refine ⟨?_, ?_, ?_⟩
        · cases hsq : s.players q with
          | none => simp [hsq]
          | some ps0 =>
              have := (hWF q ps0 hsq).1
              simp [hsq, this]
        · intro sy hsy
          cases hsq : s.players q with
          | none => simp [hsq] at hsy
          | some ps0 =>
              rw [hsq] at hsy
              exact (hWF q ps0 hsq).2.1 sy hsy
        · intro pat hpat
          cases hsq : s.players q with
          | none => simp [hsq] at hpat
          | some ps0 =>
              rw [hsq] at hpat
              exact (hWF q ps0 hsq).2.2 pat hpat
      · rw [if_neg hq] at hps
        exact hWF p ps hps
  | playerAssign q sy pat kw =>
      simp only [cmdSchemaOK, Bool.and_eq_true, bne_iff_ne, ne_eq] at hok
      intro p ps hps
      simp only [revertStep] at hps
      by_cases hq : p = q
      · rw [if_pos hq] at hps
        injection hps with hps
        subst hps
        refine ⟨rfl, ?_, ?_⟩
        · intro sy' hsy'
          injection hsy' with hsy'
          subst hsy'
          exact hok.1.1.1
        · intro pat' hpat'
          injection hpat' with hpat'
          subst hpat'
          exact hok.1.1.2
      · rw [if_neg hq] at hps
        exact hWF p ps hps

/-- A session state whose only recorded value is the global tempo. -/
def c1stateA : SessionState :=
  { globals := fun t => if t = "Clock.bpm" then some (.vInt 100) else none,
    players := fun _ => none,
    clockStarted := false }

/-- A session state holding a player with a recorded parameter but no
synth/pattern (as `player_set` on a fresh player creates). -/
def c1stateB : SessionState :=
  { globals := fun _ => none,
    players := fun p =>
      if p = "p1" then
        some { synth := none, pattern := none,
               kwargs := [("amp", Value.vNum 5 1)],
               params := [("amp", Value.vNum 5 1)] }
      else none,
    clockStarted := false }

/-- Counterexample to C1 as stated: (i) a batch setting the same global
target twice — the revert batch, applied in its given (forward) order,
leaves the target at the first update's value, not the original; (ii) a
`player_assign` over a player with recorded parameters but no recorded
synth+pattern — the revert entry is a `player_stop`, which removes the
player and loses its previously recorded parameter value. -/
theorem C1_counterexample :
    (c1stateA.globals "Clock.bpm" = some (.vInt 100) ∧
      ((_compute_revert
          (_compute_revert c1stateA
            [.setGlobal "Clock.bpm" (.vInt 110),
             .setGlobal "Clock.bpm" (.vInt 120)]).1
          (_compute_revert c1stateA
            [.setGlobal "Clock.bpm" (.vInt 110),
             .setGlobal "Clock.bpm" (.vInt 120)]).2).1).globals "Clock.bpm" =
        some (.vInt 110)) ∧
    (pParamRead c1stateB "p1" "amp" = some (.vNum 5 1) ∧
      pParamRead
        ((_compute_revert
            (_compute_revert c1stateB [.playerAssign "p1" "pluck" "[0]" []]).1
            (_compute_revert c1stateB [.playerAssign "p1" "pluck" "[0]" []]).2).1)
        "p1" "amp" = none) :=
  ⟨⟨rfl, rfl⟩, ⟨rfl, rfl⟩⟩

/-- The revert-applied state restores every recorded value of player
`p` from state `s`. -/
def restoresAt (s F : SessionState) (p : String) : Prop :=
  (∀ k v, pParamRead s p k = some v → pParamRead F p k = some v) ∧
  (∀ sy, pSynthRead s p = some sy → pSynthRead F p = some sy) ∧
  (∀ pat, pPatternRead s p = some pat → pPatternRead F p = some pat)

/-- A player absent from `s` has nothing recorded to restore. -/
theorem restoresAt_of_none (s F : SessionState) (p : String)
    (h : s.players p = none) : restoresAt s F p := by
  refine ⟨?_, ?_, ?_⟩
  · intro k v hv
    rw [pParamRead, h] at hv
    cases hv
  · intro sy hv
    rw [pSynthRead, h] at hv
    cases hv
  · intro pat hv
    rw [pPatternRead, h] at hv
    cases hv

/-- Transport a restore fact along equal player records. -/
theorem restoresAt_congr (s s1 F : SessionState) (p : String)
    (h : s1.players p = s.players p) (hr : restoresAt s1 F p) :
    restoresAt s F p := by
  obtain ⟨h1, h2, h3⟩ := hr
  refine ⟨?_, ?_, ?_⟩
  · intro k v hv
    exact h1 k v (by rw [pParamRead, h]; exact hv)
  · intro sy hv
    exact h2 sy (by rw [pSynthRead, h]; exact hv)
  · intro pat hv
    exact h3 pat (by rw [pPatternRead, h]; exact hv)

/-- The facts the round-trip proof carries through the batch: the
engine's forward pass only moves touched keys, and — for any state `u`
that agrees with the post-batch state on the touched keys — applying
the computed revert batch to `u` frames untouched keys and restores
every previously recorded touched value. -/
structure TailFacts (cs : List Cmd) (s : SessionState) : Prop where
  wf : WFState (_compute_revert s cs).1
  gframe : ∀ t, t ∉ gTouched cs →
    (_compute_revert s cs).1.globals t = s.globals t
  pframe : ∀ p, p ∉ pTouched cs →
    (_compute_revert s cs).1.players p = s.players p
  uPart : ∀ u : SessionState,
    (∀ t ∈ gTouched cs, u.globals t = (_compute_revert s cs).1.globals t) →
    (∀ p ∈ pTouched cs, u.players p = (_compute_revert s cs).1.players p) →
    (∀ t, t ∉ gTouched cs →
      (_compute_revert u (_compute_revert s cs).2).1.globals t = u.globals t) ∧
    (∀ p, p ∉ pTouched cs →
      (_compute_revert u (_compute_revert s cs).2).1.players p = u.players p) ∧
    (∀ t v, t ∈ gTouched cs → s.globals t = some v →
      (_compute_revert u (_compute_revert s cs).2).1.globals t = some v) ∧
    (∀ p, p ∈ pTouched cs →
      restoresAt s (_compute_revert u (_compute_revert s cs).2).1 p)

/-- `_compute_revert` over a cons, state component. -/
theorem compute_cons_state (u : SessionState) (r : Cmd) (R : List Cmd) :
    (_compute_revert u (r :: R)).1 = (_compute_revert (revertStep u r).1 R).1 :=
  rfl

/-- A truthy optional string is a `some` of its nonempty default. -/
theorem optStrTruthy_some (o : Option String) (h : optStrTruthy o = true) :
    o = some (o.getD "") ∧ o.getD "" ≠ "" := by
  cases o with
  | none => simp [optStrTruthy] at h
  | some x => simpa [optStrTruthy] using h

/-- Extend the tail facts across a leading `clock_clear` (touches no
global or player key; contributes no revert entry). -/
theorem TailFacts_clockClear (cs : List Cmd) (s : SessionState)
    (tf : TailFacts cs (revertStep s Cmd.clockClear).1) :
    TailFacts (Cmd.clockClear :: cs) s := by
  have hg : gTouched (Cmd.clockClear :: cs) = gTouched cs := by
    simp [gTouched, gTouchedCmd]
  have hp : pTouched (Cmd.clockClear :: cs) = pTouched cs := by
    simp [pTouched, pTouchedCmd]
  refine ⟨tf.wf, ?_, ?_, ?_⟩
  · intro t ht
    rw [hg] at ht
    exact tf.gframe t ht
  · intro p hp'
    rw [hp] at hp'
    exact tf.pframe p hp'
  · intro u hug hup
    rw [hg] at hug
    rw [hp] at hup
    obtain ⟨jGF, jPF, jGR, jPR⟩ := tf.uPart u hug hup
    refine ⟨?_, ?_, ?_, ?_⟩
    · intro t ht
      rw [hg] at ht
      exact jGF t ht
    · intro p hp'
      rw [hp] at hp'
      exact jPF p hp'
    · intro t v ht hv
      rw [hg] at ht
      exact jGR t v ht hv
    · intro p hp'
      rw [hp] at hp'
      exact restoresAt_congr s _ _ p rfl (jPR p hp')

/-- Extend the tail facts across a leading `set_global` whose target is
not touched again later in the batch. -/
theorem TailFacts_setGlobal (t0 : String) (v0 : Value) (cs : List Cmd)
    (s : SessionState) (hgD : t0 ∉ gTouched cs)
    (tf : TailFacts cs (revertStep s (Cmd.setGlobal t0 v0)).1) :
    TailFacts (Cmd.setGlobal t0 v0 :: cs) s := by
  refine ⟨tf.wf, ?_, ?_, ?_⟩
  · intro t ht
    have ht' : ¬(t = t0 ∨ t ∈ gTouched cs) := fun h => ht (List.mem_cons.mpr h)
    have hne : t ≠ t0 := fun h => ht' (Or.inl h)
    have ht2 : t ∉ gTouched cs := fun h => ht' (Or.inr h)
    exact (tf.gframe t ht2).trans
      (revertStep_globals_frame s _ t (by simp [gTouchedCmd, hne]))
  · intro p hp
    exact tf.pframe p hp
  · intro u hug hup
    have hugc : u.globals t0 =
        (_compute_revert (revertStep s (Cmd.setGlobal t0 v0)).1 cs).1.globals t0 :=
      hug t0 (List.mem_cons_self _ _)
    have hug' : ∀ t ∈ gTouched cs, u.globals t =
        (_compute_revert (revertStep s (Cmd.setGlobal t0 v0)).1 cs).1.globals t :=
      fun t ht => hug t (List.mem_cons_of_mem _ ht)
    cases hprev : s.globals t0 with
    | some pv =>
        have h2 : (revertStep s (Cmd.setGlobal t0 v0)).2 = [Cmd.setGlobal t0 pv] := by
          have h0 : (revertStep s (Cmd.setGlobal t0 v0)).2 =
              (match s.globals t0 with
                | some pv => [Cmd.setGlobal t0 pv]
                | none => []) := rfl
          rw [h0, hprev]
        have h3 : (_compute_revert s (Cmd.setGlobal t0 v0 :: cs)).2 =
            Cmd.setGlobal t0 pv ::
              (_compute_revert (revertStep s (Cmd.setGlobal t0 v0)).1 cs).2 := by
          show (revertStep s (Cmd.setGlobal t0 v0)).2 ++
              (_compute_revert (revertStep s (Cmd.setGlobal t0 v0)).1 cs).2 = _
          rw [h2]
          rfl
        have hsplit : (_compute_revert u
              (_compute_revert s (Cmd.setGlobal t0 v0 :: cs)).2).1 =
            (_compute_revert (revertStep u (Cmd.setGlobal t0 pv)).1
              (_compute_revert (revertStep s (Cmd.setGlobal t0 v0)).1 cs).2).1 := by
          rw [h3]
          exact compute_cons_state _ _ _
        have hu1g : ∀ t', t' ≠ t0 →
            (revertStep u (Cmd.setGlobal t0 pv)).1.globals t' = u.globals t' := by
          intro t' h
          show (if t' = t0 then some pv else u.globals t') = u.globals t'
          rw [if_neg h]
        have hu1gt0 : (revertStep u (Cmd.setGlobal t0 pv)).1.globals t0 = some pv := by
          show (if t0 = t0 then some pv else u.globals t0) = some pv
          rw [if_pos rfl]
        have hug1 : ∀ t ∈ gTouched cs,
            (revertStep u (Cmd.setGlobal t0 pv)).1.globals t =
            (_compute_revert (revertStep s (Cmd.setGlobal t0 v0)).1 cs).1.globals t := by
          intro t ht
          have hne : t ≠ t0 := fun h => hgD (h ▸ ht)
          rw [hu1g t hne]
          exact hug' t ht
        have hup1 : ∀ p ∈ pTouched cs,
            (revertStep u (Cmd.setGlobal t0 pv)).1.players p =
            (_compute_revert (revertStep s (Cmd.setGlobal t0 v0)).1 cs).1.players p :=
          fun p hp => hup p hp
        obtain ⟨jGF, jPF, jGR, jPR⟩ := tf.uPart _ hug1 hup1
        refine ⟨?_, ?_, ?_, ?_⟩
        · intro t ht
          have ht' : ¬(t = t0 ∨ t ∈ gTouched cs) := fun h => ht (List.mem_cons.mpr h)
          have hne : t ≠ t0 := fun h => ht' (Or.inl h)
          have ht2 : t ∉ gTouched cs := fun h => ht' (Or.inr h)
          rw [hsplit, jGF t ht2, hu1g t hne]
        · intro p hp
          rw [hsplit, jPF p hp]
          rfl
        · intro t v ht hv
          rw [hsplit]
          have ht' : t ∈ t0 :: gTouched cs := ht
          rcases List.mem_cons.mp ht' with h | h
          · subst h
            rw [hprev] at hv
            injection hv with hv
            subst hv
            rw [jGF t hgD, hu1gt0]
          · have hne : t ≠ t0 := fun he => hgD (he ▸ h)
            refine jGR t v h ?_
            show (if t = t0 then some v0 else s.globals t) = some v
            rw [if_neg hne]
            exact hv
        · intro p hp
          rw [hsplit]
          exact restoresAt_congr s _ _ p rfl (jPR p hp)
    | none =>
        have h2 : (revertStep s (Cmd.setGlobal t0 v0)).2 = [] := by
          have h0 : (revertStep s (Cmd.setGlobal t0 v0)).2 =
              (match s.globals t0 with
                | some pv => [Cmd.setGlobal t0 pv]
                | none => []) := rfl
          rw [h0, hprev]
        have h3 : (_compute_revert s (Cmd.setGlobal t0 v0 :: cs)).2 =
            (_compute_revert (revertStep s (Cmd.setGlobal t0 v0)).1 cs).2 := by
          show (revertStep s (Cmd.setGlobal t0 v0)).2 ++
              (_compute_revert (revertStep s (Cmd.setGlobal t0 v0)).1 cs).2 = _
          rw [h2]
          rfl
        obtain ⟨jGF, jPF, jGR, jPR⟩ := tf.uPart u hug' (fun p hp => hup p hp)
        refine ⟨?_, ?_, ?_, ?_⟩
        · intro t ht
          have ht' : ¬(t = t0 ∨ t ∈ gTouched cs) := fun h => ht (List.mem_cons.mpr h)
          have ht2 : t ∉ gTouched cs := fun h => ht' (Or.inr h)
          rw [h3]
          exact jGF t ht2
        · intro p hp
          rw [h3]
          exact jPF p hp
        · intro t v ht hv
          rw [h3]
          have ht' : t ∈ t0 :: gTouched cs := ht
          rcases List.mem_cons.mp ht' with h | h
          · subst h
            rw [hprev] at hv
            cases hv
          · have hne : t ≠ t0 := fun he => hgD (he ▸ h)
            refine jGR t v h ?_
            show (if t = t0 then some v0 else s.globals t) = some v
            rw [if_neg hne]
            exact hv
        · intro p hp
          rw [h3]
          exact restoresAt_congr s _ _ p rfl (jPR p hp)

/-- The player record a `player_set` step writes at its own player. -/
theorem revertStep_playerSet_self (s : SessionState) (q k0 : String)
    (v0 : Value) :
    (revertStep s (Cmd.playerSet q k0 v0)).1.players q =
      some { (s.players q).getD {} with
             kwargs := vUpsert ((s.players q).getD {}).kwargs k0 v0,
             params := vUpsert ((s.players q).getD {}).params k0 v0 } := by
  show (if q = q then _ else _) = _
  rw [if_pos rfl]

/-- The player record a `player_assign` step writes at its own player. -/
theorem revertStep_playerAssign_self (s : SessionState) (q sy pat : String)
    (kw : List (String × Value)) :
    (revertStep s (Cmd.playerAssign q sy pat kw)).1.players q =
      some { synth := some sy, pattern := some pat, kwargs := kw, params := kw } := by
  show (if q = q then _ else _) = _
  rw [if_pos rfl]

/-- A `player_stop` step removes its own player. -/
theorem revertStep_playerStop_self (s : SessionState) (q : String) :
    (revertStep s (Cmd.playerStop q)).1.players q = none := by
  show (if q = q then _ else _) = _
  rw [if_pos rfl]

/-- Extend the tail facts across a leading `player_set` whose player is
not touched again later in the batch. -/
theorem TailFacts_playerSet (q k0 : String) (v0 : Value) (cs : List Cmd)
    (s : SessionState) (hpD : q ∉ pTouched cs)
    (tf : TailFacts cs (revertStep s (Cmd.playerSet q k0 v0)).1) :
    TailFacts (Cmd.playerSet q k0 v0 :: cs) s := by
  refine ⟨tf.wf, ?_, ?_, ?_⟩
  · intro t ht
    exact tf.gframe t ht
  · intro p hp
    have hp' : ¬(p = q ∨ p ∈ pTouched cs) := fun h => hp (List.mem_cons.mpr h)
    have hne : p ≠ q := fun h => hp' (Or.inl h)
    have hp2 : p ∉ pTouched cs := fun h => hp' (Or.inr h)
    exact (tf.pframe p hp2).trans
      (revertStep_players_frame s _ p (by simp [pTouchedCmd, hne]))
  · intro u hug hup
    have huq : u.players q =
        some { (s.players q).getD {} with
               kwargs := vUpsert ((s.players q).getD {}).kwargs k0 v0,
               params := vUpsert ((s.players q).getD {}).params k0 v0 } :=
      (hup q (List.mem_cons_self _ _)).trans
        ((tf.pframe q hpD).trans (revertStep_playerSet_self s q k0 v0))
    have hup' : ∀ p ∈ pTouched cs, u.players p =
        (_compute_revert (revertStep s (Cmd.playerSet q k0 v0)).1 cs).1.players p :=
      fun p hp => hup p (List.mem_cons_of_mem _ hp)
    cases hprev : vLookup ((s.players q).getD {}).params k0 with
    | some pv =>
        have h2 : (revertStep s (Cmd.playerSet q k0 v0)).2 =
            [Cmd.playerSet q k0 pv] := by
          have h0 : (revertStep s (Cmd.playerSet q k0 v0)).2 =
              (match vLookup ((s.players q).getD {}).params k0 with
                | some pv => [Cmd.playerSet q k0 pv]
                | none => []) := rfl
          rw [h0, hprev]
        have h3 : (_compute_revert s (Cmd.playerSet q k0 v0 :: cs)).2 =
            Cmd.playerSet q k0 pv ::
              (_compute_revert (revertStep s (Cmd.playerSet q k0 v0)).1 cs).2 := by
          show (revertStep s (Cmd.playerSet q k0 v0)).2 ++
              (_compute_revert (revertStep s (Cmd.playerSet q k0 v0)).1 cs).2 = _
          rw [h2]
          rfl
        have hsplit : (_compute_revert u
              (_compute_revert s (Cmd.playerSet q k0 v0 :: cs)).2).1 =
            (_compute_revert (revertStep u (Cmd.playerSet q k0 pv)).1
              (_compute_revert (revertStep s (Cmd.playerSet q k0 v0)).1 cs).2).1 := by
          rw [h3]
          exact compute_cons_state _ _ _
        have hup1 : ∀ p ∈ pTouched cs,
            (revertStep u (Cmd.playerSet q k0 pv)).1.players p =
            (_compute_revert (revertStep s (Cmd.playerSet q k0 v0)).1 cs).1.players p := by
          intro p hp
          have hne : p ≠ q := fun h => hpD (h ▸ hp)
          rw [revertStep_players_frame u _ p (by simp [pTouchedCmd, hne])]
          exact hup' p hp
        have hug1 : ∀ t ∈ gTouched cs,
            (revertStep u (Cmd.playerSet q k0 pv)).1.globals t =
            (_compute_revert (revertStep s (Cmd.playerSet q k0 v0)).1 cs).1.globals t :=
          fun t ht => hug t ht
        obtain ⟨jGF, jPF, jGR, jPR⟩ :=
          tf.uPart (revertStep u (Cmd.playerSet q k0 pv)).1 hug1 hup1
        refine ⟨?_, ?_, ?_, ?_⟩
        · intro t ht
          rw [hsplit, jGF t ht]
          rfl
        · intro p hp
          have hp' : ¬(p = q ∨ p ∈ pTouched cs) := fun h => hp (List.mem_cons.mpr h)
          have hne : p ≠ q := fun h => hp' (Or.inl h)
          have hp2 : p ∉ pTouched cs := fun h => hp' (Or.inr h)
          rw [hsplit, jPF p hp2,
            revertStep_players_frame u _ p (by simp [pTouchedCmd, hne])]
        · intro t v ht hv
          rw [hsplit]
          exact jGR t v ht hv
        · intro p hp
          rw [hsplit]
          have hp' : p ∈ q :: pTouched cs := hp
          rcases List.mem_cons.mp hp' with h | h
          · subst h
            cases hsq : s.players p with
            | none =>
                rw [hsq] at hprev
                have hnone : (none : Option Value) = some pv := hprev
                cases hnone
            | some ps0 =>
                rw [hsq] at huq hprev
                have huq' : u.players p =
                    some { ps0 with
                           kwargs := vUpsert ps0.kwargs k0 v0,
                           params := vUpsert ps0.params k0 v0 } := huq
                have hprev' : vLookup ps0.params k0 = some pv := hprev
                have hFq : (_compute_revert (revertStep u (Cmd.playerSet p k0 pv)).1
                      (_compute_revert (revertStep s (Cmd.playerSet p k0 v0)).1 cs).2).1.players p =
                    some { ps0 with
                           kwargs := vUpsert (vUpsert ps0.kwargs k0 v0) k0 pv,
                           params := vUpsert (vUpsert ps0.params k0 v0) k0 pv } := by
                  rw [jPF p hpD, revertStep_playerSet_self u p k0 pv, huq']
                  rfl
                refine ⟨?_, ?_, ?_⟩
                · intro k v hv
                  have hv' : vLookup ps0.params k = some v := by
                    have h0 : pParamRead s p k =
                        (some ps0).bind (fun ps => vLookup ps.params k) := by
                      rw [pParamRead, hsq]
                    rw [h0] at hv
                    exact hv
                  rw [pParamRead, hFq]
                  show vLookup (vUpsert (vUpsert ps0.params k0 v0) k0 pv) k = some v
                  by_cases hk : k = k0
                  · subst hk
                    rw [hprev'] at hv'
                    injection hv' with hv'
                    subst hv'
                    exact vLookup_vUpsert_self _ _ _
                  · rw [vLookup_vUpsert_ne _ _ _ _ hk, vLookup_vUpsert_ne _ _ _ _ hk]
                    exact hv'
                · intro sy hv
                  have hv' : ps0.synth = some sy := by
                    have h0 : pSynthRead s p = (some ps0).bind (fun ps => ps.synth) := by
                      rw [pSynthRead, hsq]
                    rw [h0] at hv
                    exact hv
                  rw [pSynthRead, hFq]
                  show ps0.synth = some sy
                  exact hv'
                · intro pat hv
                  have hv' : ps0.pattern = some pat := by
                    have h0 : pPatternRead s p = (some ps0).bind (fun ps => ps.pattern) := by
                      rw [pPatternRead, hsq]
                    rw [h0] at hv
                    exact hv
                  rw [pPatternRead, hFq]
                  show ps0.pattern = some pat
                  exact hv'
          · have hne : p ≠ q := fun he => hpD (he ▸ h)
            exact restoresAt_congr s _ _ p
              (revertStep_players_frame s _ p (by simp [pTouchedCmd, hne]))
              (jPR p h)
    | none =>
        have h2 : (revertStep s (Cmd.playerSet q k0 v0)).2 = [] := by
          have h0 : (revertStep s (Cmd.playerSet q k0 v0)).2 =
              (match vLookup ((s.players q).getD {}).params k0 with
                | some pv => [Cmd.playerSet q k0 pv]
                | none => []) := rfl
          rw [h0, hprev]
        have h3 : (_compute_revert s (Cmd.playerSet q k0 v0 :: cs)).2 =
            (_compute_revert (revertStep s (Cmd.playerSet q k0 v0)).1 cs).2 := by
          show (revertStep s (Cmd.playerSet q k0 v0)).2 ++
              (_compute_revert (revertStep s (Cmd.playerSet q k0 v0)).1 cs).2 = _
          rw [h2]
          rfl
        obtain ⟨jGF, jPF, jGR, jPR⟩ :=
          tf.uPart u (fun t ht => hug t ht) hup'
        refine ⟨?_, ?_, ?_, ?_⟩
        · intro t ht
          rw [h3]
          exact jGF t ht
        · intro p hp
          have hp' : ¬(p = q ∨ p ∈ pTouched cs) := fun h => hp (List.mem_cons.mpr h)
          have hp2 : p ∉ pTouched cs := fun h => hp' (Or.inr h)
          rw [h3]
          exact jPF p hp2
        · intro t v ht hv
          rw [h3]
          exact jGR t v ht hv
        · intro p hp
          rw [h3]
          have hp' : p ∈ q :: pTouched cs := hp
          rcases List.mem_cons.mp hp' with h | h
          · subst h
            cases hsq : s.players p with
            | none => exact restoresAt_of_none s _ p hsq
            | some ps0 =>
                rw [hsq] at huq hprev
                have huq' : u.players p =
                    some { ps0 with
                           kwargs := vUpsert ps0.kwargs k0 v0,
                           params := vUpsert ps0.params k0 v0 } := huq
                have hprev' : vLookup ps0.params k0 = none := hprev
                have hFq : (_compute_revert u
                      (_compute_revert (revertStep s (Cmd.playerSet p k0 v0)).1 cs).2).1.players p =
                    some { ps0 with
                           kwargs := vUpsert ps0.kwargs k0 v0,
                           params := vUpsert ps0.params k0 v0 } := by
                  rw [jPF p hpD, huq']
                refine ⟨?_, ?_, ?_⟩
                · intro k v hv
                  have hv' : vLookup ps0.params k = some v := by
                    have h0 : pParamRead s p k =
                        (some ps0).bind (fun ps => vLookup ps.params k) := by
                      rw [pParamRead, hsq]
                    rw [h0] at hv
                    exact hv
                  rw [pParamRead, hFq]
                  show vLookup (vUpsert ps0.params k0 v0) k = some v
                  by_cases hk : k = k0
                  · subst hk
                    rw [hprev'] at hv'
                    cases hv'
                  · rw [vLookup_vUpsert_ne _ _ _ _ hk]
                    exact hv'
                · intro sy hv
                  have hv' : ps0.synth = some sy := by
                    have h0 : pSynthRead s p = (some ps0).bind (fun ps => ps.synth) := by
                      rw [pSynthRead, hsq]
                    rw [h0] at hv
                    exact hv
                  rw [pSynthRead, hFq]
                  show ps0.synth = some sy
                  exact hv'
                · intro pat hv
                  have hv' : ps0.pattern = some pat := by
                    have h0 : pPatternRead s p = (some ps0).bind (fun ps => ps.pattern) := by
                      rw [pPatternRead, hsq]
                    rw [h0] at hv
                    exact hv
                  rw [pPatternRead, hFq]
                  show ps0.pattern = some pat
                  exact hv'
          · have hne : p ≠ q := fun he => hpD (he ▸ h)
            exact restoresAt_congr s _ _ p
              (revertStep_players_frame s _ p (by simp [pTouchedCmd, hne]))
              (jPR p h)

/-- Extend the tail facts across a leading `player_assign` whose player
is not touched again later in the batch, assuming the stop/assign side
condition of the amended claim. -/
theorem TailFacts_playerAssign (q sy0 pat0 : String)
    (kw0 : List (String × Value)) (cs : List Cmd) (s : SessionState)
    (hpD : q ∉ pTouched cs) (hWF : WFState s)
    (hsafe : playerTruthy s q = true ∨ s.players q = none)
    (tf : TailFacts cs (revertStep s (Cmd.playerAssign q sy0 pat0 kw0)).1) :
    TailFacts (Cmd.playerAssign q sy0 pat0 kw0 :: cs) s := by
  refine ⟨tf.wf, ?_, ?_, ?_⟩
  · intro t ht
    exact tf.gframe t ht
  · intro p hp
    have hp' : ¬(p = q ∨ p ∈ pTouched cs) := fun h => hp (List.mem_cons.mpr h)
    have hne : p ≠ q := fun h => hp' (Or.inl h)
    have hp2 : p ∉ pTouched cs := fun h => hp' (Or.inr h)
    exact (tf.pframe p hp2).trans
      (revertStep_players_frame s _ p (by simp [pTouchedCmd, hne]))
  · intro u hug hup
    have hup' : ∀ p ∈ pTouched cs, u.players p =
        (_compute_revert (revertStep s (Cmd.playerAssign q sy0 pat0 kw0)).1 cs).1.players p :=
      fun p hp => hup p (List.mem_cons_of_mem _ hp)
    cases htr : optStrTruthy ((s.players q).getD {}).synth &&
        optStrTruthy ((s.players q).getD {}).pattern with
    | true =>
        cases hsq : s.players q with
        | none =>
            exfalso
            rw [hsq] at htr
            exact Bool.noConfusion (show (false : Bool) = true from htr)
        | some ps0 =>
            rw [hsq] at htr
            have htr' : (optStrTruthy ps0.synth && optStrTruthy ps0.pattern) = true := htr
            have h2 : (revertStep s (Cmd.playerAssign q sy0 pat0 kw0)).2 =
                [Cmd.playerAssign q (ps0.synth.getD "") (ps0.pattern.getD "") ps0.kwargs] := by
              have h0 : (revertStep s (Cmd.playerAssign q sy0 pat0 kw0)).2 =
                  (if optStrTruthy ((s.players q).getD {}).synth &&
                      optStrTruthy ((s.players q).getD {}).pattern then
                    [Cmd.playerAssign q (((s.players q).getD {}).synth.getD "")
                      (((s.players q).getD {}).pattern.getD "")
                      ((s.players q).getD {}).kwargs]
                  else [Cmd.playerStop q]) := rfl
              rw [h0, hsq]
              exact if_pos htr'
            have h3 : (_compute_revert s (Cmd.playerAssign q sy0 pat0 kw0 :: cs)).2 =
                Cmd.playerAssign q (ps0.synth.getD "") (ps0.pattern.getD "") ps0.kwargs ::
                  (_compute_revert (revertStep s (Cmd.playerAssign q sy0 pat0 kw0)).1 cs).2 := by
              show (revertStep s (Cmd.playerAssign q sy0 pat0 kw0)).2 ++
                  (_compute_revert (revertStep s (Cmd.playerAssign q sy0 pat0 kw0)).1 cs).2 = _
              rw [h2]
              rfl
            have hsplit : (_compute_revert u
                  (_compute_revert s (Cmd.playerAssign q sy0 pat0 kw0 :: cs)).2).1 =
                (_compute_revert
                  (revertStep u (Cmd.playerAssign q (ps0.synth.getD "")
                    (ps0.pattern.getD "") ps0.kwargs)).1
                  (_compute_revert (revertStep s (Cmd.playerAssign q sy0 pat0 kw0)).1 cs).2).1 := by
              rw [h3]
              exact compute_cons_state _ _ _
            have hup1 : ∀ p ∈ pTouched cs,
                (revertStep u (Cmd.playerAssign q (ps0.synth.getD "")
                  (ps0.pattern.getD "") ps0.kwargs)).1.players p =
                (_compute_revert (revertStep s (Cmd.playerAssign q sy0 pat0 kw0)).1 cs).1.players p := by
              intro p hp
              have hne : p ≠ q := fun h => hpD (h ▸ hp)
              rw [revertStep_players_frame u _ p (by simp [pTouchedCmd, hne])]
              exact hup' p hp
            have hug1 : ∀ t ∈ gTouched cs,
                (revertStep u (Cmd.playerAssign q (ps0.synth.getD "")
                  (ps0.pattern.getD "") ps0.kwargs)).1.globals t =
                (_compute_revert (revertStep s (Cmd.playerAssign q sy0 pat0 kw0)).1 cs).1.globals t :=
              fun t ht => hug t ht
            obtain ⟨jGF, jPF, jGR, jPR⟩ :=
              tf.uPart (revertStep u (Cmd.playerAssign q (ps0.synth.getD "")
                (ps0.pattern.getD "") ps0.kwargs)).1 hug1 hup1
            refine ⟨?_, ?_, ?_, ?_⟩
            · intro t ht
              rw [hsplit, jGF t ht]
              rfl
            · intro p hp
              have hp' : ¬(p = q ∨ p ∈ pTouched cs) := fun h => hp (List.mem_cons.mpr h)
              have hne : p ≠ q := fun h => hp' (Or.inl h)
              have hp2 : p ∉ pTouched cs := fun h => hp' (Or.inr h)
              rw [hsplit, jPF p hp2,
                revertStep_players_frame u _ p (by simp [pTouchedCmd, hne])]
            · intro t v ht hv
              rw [hsplit]
              exact jGR t v ht hv
            · intro p hp
              rw [hsplit]
              have hp' : p ∈ q :: pTouched cs := hp
              rcases List.mem_cons.mp hp' with h | h
              · subst h
                have hFq : (_compute_revert
                      (revertStep u (Cmd.playerAssign p (ps0.synth.getD "")
                        (ps0.pattern.getD "") ps0.kwargs)).1
                      (_compute_revert (revertStep s (Cmd.playerAssign p sy0 pat0 kw0)).1 cs).2).1.players p =
                    some { synth := some (ps0.synth.getD ""),
                           pattern := some (ps0.pattern.getD ""),
                           kwargs := ps0.kwargs, params := ps0.kwargs } := by
                  rw [jPF p hpD, revertStep_playerAssign_self]
                have hparams : ps0.params = ps0.kwargs := (hWF p ps0 hsq).1
                refine ⟨?_, ?_, ?_⟩
                · intro k v hv
                  have hv' : vLookup ps0.params k = some v := by
                    have h0 : pParamRead s p k =
                        (some ps0).bind (fun ps => vLookup ps.params k) := by
                      rw [pParamRead, hsq]
                    rw [h0] at hv
                    exact hv
                  rw [pParamRead, hFq]
                  show vLookup ps0.kwargs k = some v
                  rw [← hparams]
                  exact hv'
                · intro sy hv
                  have hv' : ps0.synth = some sy := by
                    have h0 : pSynthRead s p = (some ps0).bind (fun ps => ps.synth) := by
                      rw [pSynthRead, hsq]
                    rw [h0] at hv
                    exact hv
                  rw [pSynthRead, hFq]
                  show some (ps0.synth.getD "") = some sy
                  rw [hv']
                  rfl
                · intro pat hv
                  have hv' : ps0.pattern = some pat := by
                    have h0 : pPatternRead s p = (some ps0).bind (fun ps => ps.pattern) := by
                      rw [pPatternRead, hsq]
                    rw [h0] at hv
                    exact hv
                  rw [pPatternRead, hFq]
                  show some (ps0.pattern.getD "") = some pat
                  rw [hv']
                  rfl
              · have hne : p ≠ q := fun he => hpD (he ▸ h)
                exact restoresAt_congr s _ _ p
                  (revertStep_players_frame s _ p (by simp [pTouchedCmd, hne]))
                  (jPR p h)
    | false =>
        have hsqnone : s.players q = none := by
          rcases hsafe with h | h
          · exfalso
            cases hsq : s.players q with
            | none =>
                rw [playerTruthy, hsq] at h
                exact Bool.noConfusion (show (false : Bool) = true from h)
            | some ps0 =>
                rw [playerTruthy, hsq] at h
                rw [hsq] at htr
                have htr' : (optStrTruthy ps0.synth && optStrTruthy ps0.pattern) = false := htr
                have h' : (optStrTruthy ps0.synth && optStrTruthy ps0.pattern) = true := h
                exact Bool.noConfusion (htr'.symm.trans h')
          · exact h
        have h2 : (revertStep s (Cmd.playerAssign q sy0 pat0 kw0)).2 =
            [Cmd.playerStop q] := by
          have h0 : (revertStep s (Cmd.playerAssign q sy0 pat0 kw0)).2 =
              (if optStrTruthy ((s.players q).getD {}).synth &&
                  optStrTruthy ((s.players q).getD {}).pattern then
                [Cmd.playerAssign q (((s.players q).getD {}).synth.getD "")
                  (((s.players q).getD {}).pattern.getD "")
                  ((s.players q).getD {}).kwargs]
              else [Cmd.playerStop q]) := rfl
          rw [h0]
          exact if_neg (fun hc => Bool.noConfusion (htr ▸ hc))
        have h3 : (_compute_revert s (Cmd.playerAssign q sy0 pat0 kw0 :: cs)).2 =
            Cmd.playerStop q ::
              (_compute_revert (revertStep s (Cmd.playerAssign q sy0 pat0 kw0)).1 cs).2 := by
          show (revertStep s (Cmd.playerAssign q sy0 pat0 kw0)).2 ++
              (_compute_revert (revertStep s (Cmd.playerAssign q sy0 pat0 kw0)).1 cs).2 = _
          rw [h2]
          rfl
        have hsplit : (_compute_revert u
              (_compute_revert s (Cmd.playerAssign q sy0 pat0 kw0 :: cs)).2).1 =
            (_compute_revert (revertStep u (Cmd.playerStop q)).1
              (_compute_revert (revertStep s (Cmd.playerAssign q sy0 pat0 kw0)).1 cs).2).1 := by
          rw [h3]
          exact compute_cons_state _ _ _
        have hup1 : ∀ p ∈ pTouched cs,
            (revertStep u (Cmd.playerStop q)).1.players p =
            (_compute_revert (revertStep s (Cmd.playerAssign q sy0 pat0 kw0)).1 cs).1.players p := by
          intro p hp
          have hne : p ≠ q := fun h => hpD (h ▸ hp)
          rw [revertStep_players_frame u _ p (by simp [pTouchedCmd, hne])]
          exact hup' p hp
        have hug1 : ∀ t ∈ gTouched cs,
            (revertStep u (Cmd.playerStop q)).1.globals t =
            (_compute_revert (revertStep s (Cmd.playerAssign q sy0 pat0 kw0)).1 cs).1.globals t :=
          fun t ht => hug t ht
        obtain ⟨jGF, jPF, jGR, jPR⟩ :=
          tf.uPart (revertStep u (Cmd.playerStop q)).1 hug1 hup1
        refine ⟨?_, ?_, ?_, ?_⟩
        · intro t ht
          rw [hsplit, jGF t ht]
          rfl
        · intro p hp
          have hp' : ¬(p = q ∨ p ∈ pTouched cs) := fun h => hp (List.mem_cons.mpr h)
          have hne : p ≠ q := fun h => hp' (Or.inl h)
          have hp2 : p ∉ pTouched cs := fun h => hp' (Or.inr h)
          rw [hsplit, jPF p hp2,
            revertStep_players_frame u _ p (by simp [pTouchedCmd, hne])]
        · intro t v ht hv
          rw [hsplit]
          exact jGR t v ht hv
        · intro p hp
          rw [hsplit]
          have hp' : p ∈ q :: pTouched cs := hp
          rcases List.mem_cons.mp hp' with h | h
          · subst h
            exact restoresAt_of_none s _ p hsqnone
          · have hne : p ≠ q := fun he => hpD (he ▸ h)
            exact restoresAt_congr s _ _ p
              (revertStep_players_frame s _ p (by simp [pTouchedCmd, hne]))
              (jPR p h)

/-- Extend the tail facts across a leading `player_stop` whose player
is not touched again later in the batch, assuming the stop/assign side
condition of the amended claim. -/
theorem TailFacts_playerStop (q : String) (cs : List Cmd) (s : SessionState)
    (hpD : q ∉ pTouched cs) (hWF : WFState s)
    (hsafe : playerTruthy s q = true ∨ s.players q = none)
    (tf : TailFacts cs (revertStep s (Cmd.playerStop q)).1) :
    TailFacts (Cmd.playerStop q :: cs) s := by
  refine ⟨tf.wf, ?_, ?_, ?_⟩
  · intro t ht
    exact tf.gframe t ht
  · intro p hp
    have hp' : ¬(p = q ∨ p ∈ pTouched cs) := fun h => hp (List.mem_cons.mpr h)
    have hne : p ≠ q := fun h => hp' (Or.inl h)
    have hp2 : p ∉ pTouched cs := fun h => hp' (Or.inr h)
    exact (tf.pframe p hp2).trans
      (revertStep_players_frame s _ p (by simp [pTouchedCmd, hne]))
  · intro u hug hup
    have hup' : ∀ p ∈ pTouched cs, u.players p =
        (_compute_revert (revertStep s (Cmd.playerStop q)).1 cs).1.players p :=
      fun p hp => hup p (List.mem_cons_of_mem _ hp)
    cases htr : optStrTruthy ((s.players q).getD {}).synth &&
        optStrTruthy ((s.players q).getD {}).pattern with
    | true =>
        cases hsq : s.players q with
        | none =>
            exfalso
            rw [hsq] at htr
            exact Bool.noConfusion (show (false : Bool) = true from htr)
        | some ps0 =>
            rw [hsq] at htr
            have htr' : (optStrTruthy ps0.synth && optStrTruthy ps0.pattern) = true := htr
            have h2 : (revertStep s (Cmd.playerStop q)).2 =
                [Cmd.playerAssign q (ps0.synth.getD "") (ps0.pattern.getD "") ps0.kwargs] := by
              have h0 : (revertStep s (Cmd.playerStop q)).2 =
                  (if optStrTruthy ((s.players q).getD {}).synth &&
                      optStrTruthy ((s.players q).getD {}).pattern then
                    [Cmd.playerAssign q (((s.players q).getD {}).synth.getD "")
                      (((s.players q).getD {}).pattern.getD "")
                      ((s.players q).getD {}).kwargs]
                  else []) := rfl
              rw [h0, hsq]
              exact if_pos htr'
            have h3 : (_compute_revert s (Cmd.playerStop q :: cs)).2 =
                Cmd.playerAssign q (ps0.synth.getD "") (ps0.pattern.getD "") ps0.kwargs ::
                  (_compute_revert (revertStep s (Cmd.playerStop q)).1 cs).2 := by
              show (revertStep s (Cmd.playerStop q)).2 ++
                  (_compute_revert (revertStep s (Cmd.playerStop q)).1 cs).2 = _
              rw [h2]
              rfl
            have hsplit : (_compute_revert u
                  (_compute_revert s (Cmd.playerStop q :: cs)).2).1 =
                (_compute_revert
                  (revertStep u (Cmd.playerAssign q (ps0.synth.getD "")
                    (ps0.pattern.getD "") ps0.kwargs)).1
                  (_compute_revert (revertStep s (Cmd.playerStop q)).1 cs).2).1 := by
              rw [h3]
              exact compute_cons_state _ _ _
            have hup1 : ∀ p ∈ pTouched cs,
                (revertStep u (Cmd.playerAssign q (ps0.synth.getD "")
                  (ps0.pattern.getD "") ps0.kwargs)).1.players p =
                (_compute_revert (revertStep s (Cmd.playerStop q)).1 cs).1.players p := by
              intro p hp
              have hne : p ≠ q := fun h => hpD (h ▸ hp)
              rw [revertStep_players_frame u _ p (by simp [pTouchedCmd, hne])]
              exact hup' p hp
            have hug1 : ∀ t ∈ gTouched cs,
                (revertStep u (Cmd.playerAssign q (ps0.synth.getD "")
                  (ps0.pattern.getD "") ps0.kwargs)).1.globals t =
                (_compute_revert (revertStep s (Cmd.playerStop q)).1 cs).1.globals t :=
              fun t ht => hug t ht
            obtain ⟨jGF, jPF, jGR, jPR⟩ :=
              tf.uPart (revertStep u (Cmd.playerAssign q (ps0.synth.getD "")
                (ps0.pattern.getD "") ps0.kwargs)).1 hug1 hup1
            refine ⟨?_, ?_, ?_, ?_⟩
            · intro t ht
              rw [hsplit, jGF t ht]
              rfl
            · intro p hp
              have hp' : ¬(p = q ∨ p ∈ pTouched cs) := fun h => hp (List.mem_cons.mpr h)
              have hne : p ≠ q := fun h => hp' (Or.inl h)
              have hp2 : p ∉ pTouched cs := fun h => hp' (Or.inr h)
              rw [hsplit, jPF p hp2,
                revertStep_players_frame u _ p (by simp [pTouchedCmd, hne])]
            · intro t v ht hv
              rw [hsplit]
              exact jGR t v ht hv
            · intro p hp
              rw [hsplit]
              have hp' : p ∈ q :: pTouched cs := hp
              rcases List.mem_cons.mp hp' with h | h
              · subst h
                have hFq : (_compute_revert
                      (revertStep u (Cmd.playerAssign p (ps0.synth.getD "")
                        (ps0.pattern.getD "") ps0.kwargs)).1
                      (_compute_revert (revertStep s (Cmd.playerStop p)).1 cs).2).1.players p =
                    some { synth := some (ps0.synth.getD ""),
                           pattern := some (ps0.pattern.getD ""),
                           kwargs := ps0.kwargs, params := ps0.kwargs } := by
                  rw [jPF p hpD, revertStep_playerAssign_self]
                have hparams : ps0.params = ps0.kwargs := (hWF p ps0 hsq).1
                refine ⟨?_, ?_, ?_⟩
                · intro k v hv
                  have hv' : vLookup ps0.params k = some v := by
                    have h0 : pParamRead s p k =
                        (some ps0).bind (fun ps => vLookup ps.params k) := by
                      rw [pParamRead, hsq]
                    rw [h0] at hv
                    exact hv
                  rw [pParamRead, hFq]
                  show vLookup ps0.kwargs k = some v
                  rw [← hparams]
                  exact hv'
                · intro sy hv
                  have hv' : ps0.synth = some sy := by
                    have h0 : pSynthRead s p = (some ps0).bind (fun ps => ps.synth) := by
                      rw [pSynthRead, hsq]
                    rw [h0] at hv
                    exact hv
                  rw [pSynthRead, hFq]
                  show some (ps0.synth.getD "") = some sy
                  rw [hv']
                  rfl
                · intro pat hv
                  have hv' : ps0.pattern = some pat := by
                    have h0 : pPatternRead s p = (some ps0).bind (fun ps => ps.pattern) := by
                      rw [pPatternRead, hsq]
                    rw [h0] at hv
                    exact hv
                  rw [pPatternRead, hFq]
                  show some (ps0.pattern.getD "") = some pat
                  rw [hv']
                  rfl
              · have hne : p ≠ q := fun he => hpD (he ▸ h)
                exact restoresAt_congr s _ _ p
                  (revertStep_players_frame s _ p (by simp [pTouchedCmd, hne]))
                  (jPR p h)
    | false =>
        have hsqnone : s.players q = none := by
          rcases hsafe with h | h
          · exfalso
            cases hsq : s.players q with
            | none =>
                rw [playerTruthy, hsq] at h
                exact Bool.noConfusion (show (false : Bool) = true from h)
            | some ps0 =>
                rw [playerTruthy, hsq] at h
                rw [hsq] at htr
                have htr' : (optStrTruthy ps0.synth && optStrTruthy ps0.pattern) = false := htr
                have h' : (optStrTruthy ps0.synth && optStrTruthy ps0.pattern) = true := h
                exact Bool.noConfusion (htr'.symm.trans h')
          · exact h
        have h2 : (revertStep s (Cmd.playerStop q)).2 = [] := by
          have h0 : (revertStep s (Cmd.playerStop q)).2 =
              (if optStrTruthy ((s.players q).getD {}).synth &&
                  optStrTruthy ((s.players q).getD {}).pattern then
                [Cmd.playerAssign q (((s.players q).getD {}).synth.getD "")
                  (((s.players q).getD {}).pattern.getD "")
                  ((s.players q).getD {}).kwargs]
              else []) := rfl
          rw [h0]
          exact if_neg (fun hc => Bool.noConfusion (htr ▸ hc))
        have h3 : (_compute_revert s (Cmd.playerStop q :: cs)).2 =
            (_compute_revert (revertStep s (Cmd.playerStop q)).1 cs).2 := by
          show (revertStep s (Cmd.playerStop q)).2 ++
              (_compute_revert (revertStep s (Cmd.playerStop q)).1 cs).2 = _
          rw [h2]
          rfl
        obtain ⟨jGF, jPF, jGR, jPR⟩ :=
          tf.uPart u (fun t ht => hug t ht) hup'
        refine ⟨?_, ?_, ?_, ?_⟩
        · intro t ht
          rw [h3]
          exact jGF t ht
        · intro p hp
          have hp' : ¬(p = q ∨ p ∈ pTouched cs) := fun h => hp (List.mem_cons.mpr h)
          have hp2 : p ∉ pTouched cs := fun h => hp' (Or.inr h)
          rw [h3]
          exact jPF p hp2
        · intro t v ht hv
          rw [h3]
          exact jGR t v ht hv
        · intro p hp
          rw [h3]
          have hp' : p ∈ q :: pTouched cs := hp
          rcases List.mem_cons.mp hp' with h | h
          · subst h
            exact restoresAt_of_none s _ p hsqnone
          · have hne : p ≠ q := fun he => hpD (he ▸ h)
            exact restoresAt_congr s _ _ p
              (revertStep_players_frame s _ p (by simp [pTouchedCmd, hne]))
              (jPR p h)

/-- The round-trip invariant of `_compute_revert`, by induction over
the batch: under the amended claim's side conditions (each global
target and each player touched at most once; assigns/stops only on
truthy-recorded or absent players; schema-conformant commands;
well-formed state) the forward pass frames untouched keys and the
computed revert batch restores every previously recorded value. -/
theorem revert_strong : ∀ (cs : List Cmd) (s : SessionState),
    WFState s → (gTouched cs).Nodup → (pTouched cs).Nodup →
    (∀ c ∈ cs, cmdSchemaOK c = true) → stopAssignSafe s cs →
    TailFacts cs s := by
  intro cs
  induction cs with
  | nil =>
      intro s hWF _ _ _ _
      refine ⟨hWF, fun t _ => rfl, fun p _ => rfl, ?_⟩
      intro u _ _
      exact ⟨fun t _ => rfl, fun p _ => rfl,
        fun t v ht _ => absurd ht (List.not_mem_nil t),
        fun p hp => absurd hp (List.not_mem_nil p)⟩
  | cons c cs ih =>
      intro s hWF hgN hpN hok hsafe
      have hgflat : gTouched (c :: cs) = gTouchedCmd c ++ gTouched cs := rfl
      have hpflat : pTouched (c :: cs) = pTouchedCmd c ++ pTouched cs := rfl
      obtain ⟨hgN1, hgN2, hgD⟩ := List.nodup_append.mp (hgflat ▸ hgN)
      obtain ⟨hpN1, hpN2, hpD⟩ := List.nodup_append.mp (hpflat ▸ hpN)
      have hokc : cmdSchemaOK c = true := hok c (List.mem_cons_self _ _)
      have hok' : ∀ x ∈ cs, cmdSchemaOK x = true :=
        fun x hx => hok x (List.mem_cons_of_mem _ hx)
      have hsafec := hsafe c (List.mem_cons_self _ _)
      have hWF1 : WFState (revertStep s c).1 := WFState_revertStep s c hWF hokc
      have hsafe1 : stopAssignSafe (revertStep s c).1 cs := by
        intro c' hc'
        have h0 := hsafe c' (List.mem_cons_of_mem _ hc')
        cases c' with
        | playerAssign p' a b d =>
            have hpmem : p' ∈ pTouched cs := by
              simp only [pTouched, List.mem_flatMap]
              exact ⟨_, hc', by simp [pTouchedCmd]⟩
            have hne : p' ∉ pTouchedCmd c := fun hx => hpD hx hpmem
            have heq := revertStep_players_frame s c p' hne
            show playerTruthy (revertStep s c).1 p' = true ∨
              (revertStep s c).1.players p' = none
            have hT : playerTruthy (revertStep s c).1 p' = playerTruthy s p' := by
              rw [playerTruthy, playerTruthy, heq]
            rw [hT, heq]
            exact h0
        | playerStop p' =>
            have hpmem : p' ∈ pTouched cs := by
              simp only [pTouched, List.mem_flatMap]
              exact ⟨_, hc', by simp [pTouchedCmd]⟩
            have hne : p' ∉ pTouchedCmd c := fun hx => hpD hx hpmem
            have heq := revertStep_players_frame s c p' hne
            show playerTruthy (revertStep s c).1 p' = true ∨
              (revertStep s c).1.players p' = none
            have hT : playerTruthy (revertStep s c).1 p' = playerTruthy s p' := by
              rw [playerTruthy, playerTruthy, heq]
            rw [hT, heq]
            exact h0
        | setGlobal t v => trivial
        | playerSet p k v => trivial
        | clockClear => trivial
      have tf := ih (revertStep s c).1 hWF1 hgN2 hpN2 hok' hsafe1
      cases c with
      | clockClear => exact TailFacts_clockClear cs s tf
      | setGlobal t0 v0 =>
          have ht0 : t0 ∉ gTouched cs :=
            fun h => hgD (by simp [gTouchedCmd]) h
          exact TailFacts_setGlobal t0 v0 cs s ht0 tf
      | playerSet q k0 v0 =>
          have hq : q ∉ pTouched cs :=
            fun h => hpD (by simp [pTouchedCmd]) h
          exact TailFacts_playerSet q k0 v0 cs s hq tf
      | playerAssign q sy pat kw =>
          have hq : q ∉ pTouched cs :=
            fun h => hpD (by simp [pTouchedCmd]) h
          have hsafec' : playerTruthy s q = true ∨ s.players q = none := hsafec
          exact TailFacts_playerAssign q sy pat kw cs s hq hWF hsafec' tf
      | playerStop q =>
          have hq : q ∉ pTouched cs :=
            fun h => hpD (by simp [pTouchedCmd]) h
          have hsafec' : playerTruthy s q = true ∨ s.players q = none := hsafec
          exact TailFacts_playerStop q cs s hq hWF hsafec' tf

/-- C1 (amended): for every command batch in which each global target
and each player is touched by at most one command, every command is
schema-conformant, every `player_assign`/`player_stop` targets a player
whose recorded synth and pattern are truthy or who is absent, and the
session state is well-formed, applying the batch through
`_compute_revert` (forward order, each step reading the pre-update
state) and then applying the returned revert batch, in its given order,
restores every global value and every player value (parameter slots,
synth, pattern) that had a prior recorded value before the original
batch was applied.  (As originally stated — without the
distinct-targets and truthy-or-absent conditions — the claim is false;
see the counterexample.) -/
theorem C1_revert_roundtrip_restores_recorded_values
    (cs : List Cmd) (s : SessionState)
    (hWF : WFState s) (hgN : (gTouched cs).Nodup) (hpN : (pTouched cs).Nodup)
    (hok : ∀ c ∈ cs, cmdSchemaOK c = true) (hsafe : stopAssignSafe s cs) :
    (∀ t v, s.globals t = some v →
      (_compute_revert (_compute_revert s cs).1
        (_compute_revert s cs).2).1.globals t = some v) ∧
    (∀ p, restoresAt s
      (_compute_revert (_compute_revert s cs).1 (_compute_revert s cs).2).1 p) := by
  have tf := revert_strong cs s hWF hgN hpN hok hsafe
  obtain ⟨jGF, jPF, jGR, jPR⟩ :=
    tf.uPart (_compute_revert s cs).1 (fun t _ => rfl) (fun p _ => rfl)
  constructor
  · intro t v hv
    by_cases ht : t ∈ gTouched cs
    · exact jGR t v ht hv
    · rw [jGF t ht, tf.gframe t ht]
      exact hv
  · intro p
    by_cases hp : p ∈ pTouched cs
    · exact jPR p hp
    · have he : (_compute_revert (_compute_revert s cs).1
          (_compute_revert s cs).2).1.players p = s.players p :=
        (jPF p hp).trans (tf.pframe p hp)
      refine ⟨?_, ?_, ?_⟩
      · intro k v hv
        rw [pParamRead, he]
        rw [pParamRead] at hv
        exact hv
      · intro sy hv
        rw [pSynthRead, he]
        rw [pSynthRead] at hv
        exact hv
      · intro pat hv
        rw [pPatternRead, he]
        rw [pPatternRead] at hv
        exact hv

/-- A session state with one recorded global and one fully recorded
player, exercising both restoration clauses of the round trip. -/
def c1stateC : SessionState :=
  { globals := fun t => if t = "Clock.bpm" then some (Value.vInt 100) else none,
    players := fun p =>
      if p = "p1" then
        some { synth := some "pluck", pattern := some "[0]",
               kwargs := [("amp", Value.vNum 5 1)],
               params := [("amp", Value.vNum 5 1)] }
      else none,
    clockStarted := true }

/-- A batch touching the recorded global once and the recorded player
once. -/
def c1wbatch : List Cmd :=
  [Cmd.setGlobal "Clock.bpm" (Value.vInt 120),
   Cmd.playerAssign "p1" "blip" "[1, 2]" [("dur", Value.vNum 25 2)]]

/-- Witness: the amended C1 theorem applied to a concrete state and
batch restores the recorded tempo, the recorded amp parameter, and the
recorded synth after the round trip. -/
theorem C1_revert_roundtrip_witness :
    ((_compute_revert (_compute_revert c1stateC c1wbatch).1
        (_compute_revert c1stateC c1wbatch).2).1.globals "Clock.bpm" =
      some (Value.vInt 100)) ∧
    (pParamRead (_compute_revert (_compute_revert c1stateC c1wbatch).1
        (_compute_revert c1stateC c1wbatch).2).1 "p1" "amp" =
      some (Value.vNum 5 1)) ∧
    (pSynthRead (_compute_revert (_compute_revert c1stateC c1wbatch).1
        (_compute_revert c1stateC c1wbatch).2).1 "p1" = some "pluck") := by
  have h := C1_revert_roundtrip_restores_recorded_values c1wbatch c1stateC
    (by
      intro p ps h
      have h' : (if p = "p1" then
          some ({ synth := some "pluck", pattern := some "[0]",
                  kwargs := [("amp", Value.vNum 5 1)],
                  params := [("amp", Value.vNum 5 1)] } : PlayerState)
        else none) = some ps := h
      by_cases hp : p = "p1"
      · rw [if_pos hp] at h'
        injection h' with h'
        subst h'
        refine ⟨rfl, ?_, ?_⟩
        · intro sy hsy
          injection hsy with e
          subst e
          decide
        · intro pat hpat
          injection hpat with e
          subst e
          decide
      · rw [if_neg hp] at h'
        cases h')
    (by decide) (by decide) (by decide)
    (by
      intro c hc
      have hc' : c = Cmd.setGlobal "Clock.bpm" (Value.vInt 120) ∨
          c = Cmd.playerAssign "p1" "blip" "[1, 2]"
            [("dur", Value.vNum 25 2)] := by
        simpa [c1wbatch] using hc
      rcases hc' with rfl | rfl
      · trivial
      · exact Or.inl (by decide))
  exact ⟨h.1 "Clock.bpm" (Value.vInt 100) rfl,
    (h.2 "p1").1 "amp" (Value.vNum 5 1) rfl,
    (h.2 "p1").2.1 "pluck" rfl⟩

end SyntaxToSound
